import Mathlib

/-!
A shallow embedding of the cuckoo filter implementation in `cuckoo.go`.

Modelling conventions:
* Byte sequences are `List Nat` with entries below 256.
* The pluggable 32-bit streaming hash (`hash.Hash32`, an external capability)
  is a pure function from byte lists to `Nat`; the digest the code reads is
  its value reduced modulo `2^32`.
* The uniform random source (`rand.Intn`) is an injected list of naturals,
  consumed in the order the implementation draws random values; a drawn raw
  value `r` for `rand.Intn(n)` is reduced to `r % n`.
* `uint32` / `uint16` machine arithmetic is modelled on `Nat` with explicit
  reductions modulo `2^32` / `2^16`; the `uint32` occupancy counter wraps.
* Mutation of the filter is explicit state passing: operations return the
  result boolean together with the new filter state.
-/

namespace Cuckoo

/-- The pluggable 32-bit streaming hash, as a pure capability: bytes to digest. -/
abbrev Hash32 := List Nat → Nat

/-- `2^32`, the modulus of `uint32` arithmetic. -/
def U32 : Nat := 4294967296

/-- `defaultBucketSize = 4`. -/
def defaultBucketSize : Nat := 4

/-- `defaultTotalBuckets = 4 << 20`. -/
def defaultTotalBuckets : Nat := 4194304

/-- `defaultMaxKicks = 500`. -/
def defaultMaxKicks : Nat := 500

/-- The `Filter` struct: occupancy counter, bucket table, sizing parameters and
the hash instance.  Buckets are lists of fingerprints; the value `0` is the
empty-slot sentinel (`emptyFingerprint`). -/
structure Filter where
  count : Nat
  buckets : List (List Nat)
  bucketSize : Nat
  totalBuckets : Nat
  hash : Hash32
  maxKicks : Nat

/-- `initBuckets`: a table of `totalBuckets` buckets of `bucketSize` empty slots. -/
def initBuckets (totalBuckets bucketSize : Nat) : List (List Nat) :=
  List.replicate totalBuckets (List.replicate bucketSize 0)

/-- `newFilter`: fresh filter with the given table size, bucket size and hash. -/
def newFilter (tb bs : Nat) (h : Hash32) : Filter :=
  { count := 0, buckets := initBuckets tb bs, bucketSize := bs,
    totalBuckets := tb, hash := h, maxKicks := defaultMaxKicks }

/-- The loop of `nextPowerOf2`: `for i = 2; i < 32; i++ { n = 1 << i; if n >= v break }`. -/
def nextPowerOf2Go (i v : Nat) : Nat :=
  if _h : i < 32 then
    if 2 ^ i ≥ v then 2 ^ i else nextPowerOf2Go (i + 1) v
  else 2 ^ 31
termination_by 32 - i

/-- `nextPowerOf2`: the next power of two `≥ v` (within the loop's range). -/
def nextPowerOf2 (v : Nat) : Nat := nextPowerOf2Go 2 v

/-- `NewFilter`: capacity-driven constructor (hash left pluggable, as the
murmur3 instance is an external collaborator). -/
def NewFilterWith (count : Nat) (h : Hash32) : Filter :=
  newFilter (nextPowerOf2 count / defaultBucketSize) defaultBucketSize h

/-- `deleteFrom`: clears the first slot equal to `fp` (sets the empty sentinel
`0`); `some` of the updated bucket when a match was found, `none` otherwise. -/
def deleteFrom : List Nat → Nat → Option (List Nat)
  | [], _ => none
  | y :: ys, fp =>
    if y = fp then some (0 :: ys)
    else (deleteFrom ys fp).map (fun ys2 => y :: ys2)

/-- `containsIn`: linear scan for `fp` in the bucket. -/
def containsIn : List Nat → Nat → Bool
  | [], _ => false
  | y :: ys, fp => if y = fp then true else containsIn ys fp

/-- `addToBucket`: places `fp` in the first empty (`0`) slot; `some` of the
updated bucket on success, `none` when the bucket is full. -/
def addToBucket : List Nat → Nat → Option (List Nat)
  | [], _ => none
  | y :: ys, fp =>
    if y ≠ 0 then (addToBucket ys fp).map (fun ys2 => y :: ys2)
    else some (fp :: ys)

/-- `hashOf`: the 32-bit digest of `x` and its four big-endian bytes. -/
def hashOf (x : List Nat) (h : Hash32) : Nat × List Nat :=
  let d := h x % U32
  (d, [(d >>> 24) % 256, (d >>> 16) % 256, (d >>> 8) % 256, d % 256])

/-- `fingerprintOf`: the big-endian 16-bit value of the first two bytes of
`xb`, and the 32-bit digest of just those two bytes. -/
def fingerprintOf (xb : List Nat) (h : Hash32) : Nat × Nat :=
  let fp := xb.getD 0 0 * 256 + xb.getD 1 0
  (fp, (hashOf (xb.take 2) h).1)

/-- `indicesOf`: `i1 = xh % totalBuckets`, `i2 = (i1 XOR fph) % totalBuckets`. -/
def indicesOf (xh fph totalBuckets : Nat) : Nat × Nat :=
  let i1 := xh % totalBuckets
  (i1, (i1 ^^^ fph) % totalBuckets)

/-- `binary.BigEndian.PutUint16`: the two big-endian bytes of a 16-bit value. -/
def toBytes2 (fp : Nat) : List Nat := [(fp >>> 8) % 256, fp % 256]

/-- `replaceItem`: swaps `fp` into a random slot of bucket `i`, and returns the
alternate index computed from the hash of `fp`'s two bytes (the fingerprint
just swapped in — this is the source's `PutUint16(tempBytes, uint16(fp))`),
together with the evicted fingerprint and the updated state. -/
def replaceItem (f : Filter) (i fp r : Nat) : Nat × Nat × Filter :=
  let b := f.buckets.getD i []
  let k := r % b.length
  let rfp := b.getD k 0
  let b2 := b.set k fp
  let rfph := (hashOf (toBytes2 fp) f.hash).1
  let j := (i ^^^ rfph) % f.totalBuckets
  (j, rfp, { f with buckets := f.buckets.set i b2 })

/-- The eviction loop of `insert` (`for k = 0; k < f.maxKicks; k++`), with the
remaining iteration budget as an explicit fuel argument. -/
def kickLoop (f : Filter) (fuel ri fp : Nat) (rs : List Nat) : Bool × Filter :=
  match fuel with
  | 0 => (false, f)
  | fuel' + 1 =>
    let t := replaceItem f ri fp (rs.headD 0)
    match addToBucket (t.2.2.buckets.getD t.1 []) t.2.1 with
    | some b2 => (true, { t.2.2 with buckets := t.2.2.buckets.set t.1 b2 })
    | none => kickLoop t.2.2 fuel' t.1 t.2.1 rs.tail

/-- `insert`: computes fingerprint and indices, tries direct placement into
either candidate bucket, falls back to the eviction loop, and bumps the
(wrapping `uint32`) counter exactly when the result is success. -/
def insert (f : Filter) (x rs : List Nat) : Bool × Filter :=
  let xp := hashOf x f.hash
  let fpp := fingerprintOf xp.2 f.hash
  let ip := indicesOf xp.1 fpp.2 f.totalBuckets
  let r :=
    match addToBucket (f.buckets.getD ip.1 []) fpp.1 with
    | some b1 => (true, { f with buckets := f.buckets.set ip.1 b1 })
    | none =>
      match addToBucket (f.buckets.getD ip.2 []) fpp.1 with
      | some b2 => (true, { f with buckets := f.buckets.set ip.2 b2 })
      | none =>
        let ri := if rs.headD 0 % 2 = 0 then ip.1 else ip.2
        kickLoop f f.maxKicks ri fpp.1 rs.tail
  if r.1 then (true, { r.2 with count := (r.2.count + 1) % U32 }) else r

/-- `lookup`: true iff the fingerprint is present in either candidate bucket. -/
def lookup (f : Filter) (x : List Nat) : Bool :=
  let xp := hashOf x f.hash
  let fpp := fingerprintOf xp.2 f.hash
  let ip := indicesOf xp.1 fpp.2 f.totalBuckets
  containsIn (f.buckets.getD ip.1 []) fpp.1 ||
    containsIn (f.buckets.getD ip.2 []) fpp.1

/-- `deleteItem`: removes one occurrence from bucket `i1`, else from `i2`;
decrements the (wrapping `uint32`) counter exactly on success. -/
def deleteItem (f : Filter) (x : List Nat) : Bool × Filter :=
  let xp := hashOf x f.hash
  let fpp := fingerprintOf xp.2 f.hash
  let ip := indicesOf xp.1 fpp.2 f.totalBuckets
  let r :=
    match deleteFrom (f.buckets.getD ip.1 []) fpp.1 with
    | some b1 => (true, { f with buckets := f.buckets.set ip.1 b1 })
    | none =>
      match deleteFrom (f.buckets.getD ip.2 []) fpp.1 with
      | some b2 => (true, { f with buckets := f.buckets.set ip.2 b2 })
      | none => (false, f)
  if r.1 then (true, { r.2 with count := (r.2.count + (U32 - 1)) % U32 }) else r

/-- `check`: rejects empty input; zero-pads a single-byte item on the left. -/
def check (x : List Nat) : Option (List Nat) :=
  if x.length = 0 then none
  else if x.length = 1 then some (0 :: x)
  else some x

/-- `Insert`: the public insert wrapper (input validation, then `insert`). -/
def Filter.Insert (f : Filter) (x rs : List Nat) : Bool × Filter :=
  match check x with
  | none => (false, f)
  | some x2 => insert f x2 rs

/-- `Lookup`: the public lookup wrapper. -/
def Filter.Lookup (f : Filter) (x : List Nat) : Bool :=
  match check x with
  | none => false
  | some x2 => lookup f x2

/-- `InsertUnique`: looks the item up first; inserts only when absent. -/
def Filter.InsertUnique (f : Filter) (x rs : List Nat) : Bool × Filter :=
  match check x with
  | none => (false, f)
  | some x2 =>
    if f.Lookup x2 then (true, f)
    else insert f x2 rs

/-- `Delete`: the public delete wrapper. -/
def Filter.Delete (f : Filter) (x : List Nat) : Bool × Filter :=
  match check x with
  | none => (false, f)
  | some x2 => deleteItem f x2

/-- `Count`: the occupancy counter. -/
def Filter.Count (f : Filter) : Nat := f.count

/-- `check`'s padding in isolation: a single-byte item is zero-padded. -/
def pad (x : List Nat) : List Nat :=
  if x.length = 1 then 0 :: x else x

/-- The fingerprint value `insert`, `lookup` and `deleteItem` derive for a raw
input item (this is exactly the composition
`fingerprintOf (hashOf x' f.hash).2 f.hash` each of them computes after
`check` validation); `none` when the item is rejected. -/
def usedFingerprint (H : Hash32) (x : List Nat) : Option Nat :=
  match check x with
  | none => none
  | some x2 => some (fingerprintOf (hashOf x2 H).2 H).1

/-- The two candidate bucket indices derived for a (validated) item. -/
def itemIndices (H : Hash32) (tb : Nat) (x : List Nat) : Nat × Nat :=
  indicesOf (hashOf x H).1 (fingerprintOf (hashOf x H).2 H).2 tb

/-- A single public call: the operation language for reachable-state claims. -/
inductive Op where
  | ins (x rs : List Nat)
  | insU (x rs : List Nat)
  | look (x : List Nat)
  | del (x : List Nat)

/-- The item a call operates on. -/
def Op.item : Op → List Nat
  | .ins x _ => x
  | .insU x _ => x
  | .look x => x
  | .del x => x

/-- Execute one public call. -/
def runOp (f : Filter) : Op → Bool × Filter
  | .ins x rs => f.Insert x rs
  | .insU x rs => f.InsertUnique x rs
  | .look x => (f.Lookup x, f)
  | .del x => f.Delete x

/-- Execute a sequence of public calls, collecting the boolean results. -/
def runOps (f : Filter) : List Op → List Bool × Filter
  | [] => ([], f)
  | op :: ops =>
    let r := runOp f op
    let rest := runOps r.2 ops
    (r.1 :: rest.1, rest.2)

/-- The instrumented eviction loop: identical to `kickLoop` but also counts
the number of `replaceItem` (bucket-swap) steps performed. -/
def kickLoopK (f : Filter) (fuel ri fp : Nat) (rs : List Nat) :
    Bool × Filter × Nat :=
  match fuel with
  | 0 => (false, f, 0)
  | fuel' + 1 =>
    let t := replaceItem f ri fp (rs.headD 0)
    match addToBucket (t.2.2.buckets.getD t.1 []) t.2.1 with
    | some b2 => (true, { t.2.2 with buckets := t.2.2.buckets.set t.1 b2 }, 1)
    | none =>
      let rest := kickLoopK t.2.2 fuel' t.1 t.2.1 rs.tail
      (rest.1, rest.2.1, rest.2.2 + 1)

/-- `insert`, instrumented with the number of relocation steps performed. -/
def insertK (f : Filter) (x rs : List Nat) : Bool × Filter × Nat :=
  let xp := hashOf x f.hash
  let fpp := fingerprintOf xp.2 f.hash
  let ip := indicesOf xp.1 fpp.2 f.totalBuckets
  let r :=
    match addToBucket (f.buckets.getD ip.1 []) fpp.1 with
    | some b1 => (true, { f with buckets := f.buckets.set ip.1 b1 }, 0)
    | none =>
      match addToBucket (f.buckets.getD ip.2 []) fpp.1 with
      | some b2 => (true, { f with buckets := f.buckets.set ip.2 b2 }, 0)
      | none =>
        let ri := if rs.headD 0 % 2 = 0 then ip.1 else ip.2
        kickLoopK f f.maxKicks ri fpp.1 rs.tail
  if r.1 then (true, { r.2.1 with count := (r.2.1.count + 1) % U32 }, r.2.2)
  else r

/-- A concrete pluggable hash driving the eviction-chain scenarios below. -/
def hOne : Hash32 := fun x =>
  if x = [0, 5] then 65536
  else if x = [0, 1] then 1
  else if x = [0, 2] then 1
  else if x = [0, 3] then 2
  else 0

/-- The all-zero-digest hash: every item's fingerprint is the empty sentinel. -/
def hZero : Hash32 := fun _ => 0

/-- A concrete hash for the `replaceItem` alternate-index scenario. -/
def hTwo : Hash32 := fun x =>
  if x = [0, 7] then 1
  else if x = [0, 5] then 2
  else 0

/-- A four-bucket, one-slot-per-bucket filter state used to exhibit the
behaviour of the eviction chain of `insert`. -/
def cexFilter : Filter :=
  { count := 0, buckets := [[2], [3], [0], [0]], bucketSize := 1,
    totalBuckets := 4, hash := hOne, maxKicks := 500 }

/-- A one-slot-per-bucket filter state for the `replaceItem` scenario. -/
def c2Filter : Filter :=
  { count := 0, buckets := [[5], [0], [0], [0]], bucketSize := 1,
    totalBuckets := 4, hash := hTwo, maxKicks := 500 }

/-- State after two `Insert`s of the sentinel-fingerprint item `[0,5]` into a
fresh one-bucket filter under the all-zero hash. -/
def c8f2 : Filter := (((newFilter 1 4 hZero).Insert [0, 5] []).2.Insert [0, 5] []).2

/-- `c8f2` after one `Delete` of the same item. -/
def c8f3 : Filter := (c8f2.Delete [0, 5]).2

/-! ## Basic facts used by several claims -/

/-- For non-empty input, `check` succeeds and returns the zero-padded item. -/
theorem check_eq_pad (x : List Nat) (hx : x ≠ []) : check x = some (pad x) := by
  rcases x with _ | ⟨a, l⟩
  · exact absurd rfl hx
  · rcases l with _ | ⟨b, l2⟩ <;> simp [check, pad]

/-- `deleteFrom` finds a slot to clear exactly when the bucket contains the
fingerprint. -/
theorem deleteFrom_isSome_iff (b : List Nat) (fp : Nat) :
    (deleteFrom b fp).isSome = true ↔ containsIn b fp = true := by
  induction b with
  | nil => simp [deleteFrom, containsIn]
  | cons y ys ih =>
    by_cases h : y = fp <;> simp [deleteFrom, containsIn, h, ih]

/-! ## Claim theorems (first batch) -/

/-- C9: for the empty byte sequence, `Insert`, `InsertUnique`, `Lookup` and
`Delete` all return `false` and leave the filter state (every bucket slot and
the counter, hence `Count`) unchanged. -/
theorem empty_input_rejected (f : Filter) (rs : List Nat) :
    f.Insert [] rs = (false, f) ∧ f.InsertUnique [] rs = (false, f) ∧
      f.Lookup [] = false ∧ f.Delete [] = (false, f) :=
  ⟨rfl, rfl, rfl, rfl⟩

/-- C1 (code bug): a concrete state, hash and random stream where `Insert`
returns `true` but the immediately following `Lookup` of the same item returns
`false`.  The eviction chain relocates the item's fingerprint `1` into bucket
`2`, which is not one of its candidate buckets `0` and `1`, because
`replaceItem` derives the evicted fingerprint's destination index from the
hash of the fingerprint that was swapped in. -/
theorem insert_true_then_lookup_false :
    (cexFilter.Insert [0, 5] [0, 0, 0, 0]).1 = true ∧
      (cexFilter.Insert [0, 5] [0, 0, 0, 0]).2.Lookup [0, 5] = false :=
  ⟨rfl, rfl⟩

/-- C2 (code bug): `replaceItem` computes the alternate bucket index for the
evicted fingerprint `5` from the hash of the fingerprint `7` that was swapped
in: it returns index `(0 XOR hash [0,7]) % 4 = 1`, while the index the claim
prescribes — from the hash of the evicted fingerprint's own two bytes — is
`(0 XOR hash [0,5]) % 4 = 2`. -/
theorem replaceItem_uses_incoming_hash :
    (replaceItem c2Filter 0 7 0).2.1 = 5 ∧
      (replaceItem c2Filter 0 7 0).1 = (0 ^^^ (hashOf (toBytes2 7) hTwo).1) % 4 ∧
      (replaceItem c2Filter 0 7 0).1 ≠ (0 ^^^ (hashOf (toBytes2 5) hTwo).1) % 4 :=
  ⟨rfl, rfl, by decide⟩

/-- C5 (code bug): two successive `InsertUnique` calls for the same item both
return `true` and increment `Count` from `0` to `2`: the first call's eviction
chain moves the item's fingerprint out of its candidate buckets, so the second
call's lookup misses and it inserts the item again. -/
theorem insertUnique_double_increment :
    (cexFilter.InsertUnique [0, 5] [0, 0, 0, 0]).1 = true ∧
      ((cexFilter.InsertUnique [0, 5] [0, 0, 0, 0]).2.InsertUnique [0, 5]
        [0, 0, 0, 0]).1 = true ∧
      cexFilter.Count = 0 ∧
      ((cexFilter.InsertUnique [0, 5] [0, 0, 0, 0]).2.InsertUnique [0, 5]
        [0, 0, 0, 0]).2.Count = 2 :=
  ⟨rfl, rfl, rfl, rfl⟩

/-- C3 (counterexample): with hash `hOne` and item `[0,5]`, the fingerprint
the implementation derives is `1` — the high 16 bits of the digest `65536` —
and not `5`, the big-endian 16-bit value of the item's first two bytes. -/
theorem fingerprint_not_item_bytes :
    usedFingerprint hOne [0, 5] = some 1 ∧
      usedFingerprint hOne [0, 5] ≠ some (0 * 256 + 5) :=
  ⟨rfl, by decide⟩

/-- C3 (amended): for every hash and non-empty item, the fingerprint used by
`insert`, `lookup` and `deleteItem` equals the big-endian 16-bit value of the
first two bytes of the item's 4-byte big-endian digest, i.e. the high 16 bits
`(H (pad x) % 2^32) / 2^16` of the 32-bit digest of the zero-padded item. -/
theorem usedFingerprint_eq_digest_high16 (H : Hash32) (x : List Nat)
    (hx : x ≠ []) :
    usedFingerprint H x = some (H (pad x) % U32 / 65536) := by
  rw [usedFingerprint, check_eq_pad x hx]
  simp only [fingerprintOf, hashOf, U32]
  have hd : H (pad x) % 4294967296 < 4294967296 := Nat.mod_lt _ (by norm_num)
  simp only [Nat.shiftRight_eq_div_pow, List.getD]
  norm_num
  omega

/-- C4 (counterexample): from a fresh one-slot filter, two `Insert` calls of
an item whose derived fingerprint is the empty sentinel `0` both return `true`
without occupying any slot, driving `count` to `2` — above the capacity
`bucketSize × totalBuckets = 1`. -/
theorem count_exceeds_capacity :
    (runOps (newFilter 1 1 hZero) [Op.ins [0, 5] [], Op.ins [0, 5] []]).1
        = [true, true] ∧
      (runOps (newFilter 1 1 hZero) [Op.ins [0, 5] [], Op.ins [0, 5] []]).2.count
        > (newFilter 1 1 hZero).bucketSize * (newFilter 1 1 hZero).totalBuckets :=
  ⟨rfl, by decide⟩

/-- C6 (counterexample): a sequence with zero successful `Insert` calls and
one successful `Delete` call (the sentinel-fingerprint delete succeeds on a
fresh filter), after which `Count` is `2^32 - 1`, not `N - M = -1`. -/
theorem count_ne_inserts_sub_deletes :
    (runOps (newFilter 1 4 hZero) [Op.del [0, 5]]).1 = [true] ∧
      ((runOps (newFilter 1 4 hZero) [Op.del [0, 5]]).2.Count : Int)
        ≠ (0 : Int) - 1 :=
  ⟨rfl, by decide⟩

/-- C8 (counterexample): for an item whose fingerprint is the empty sentinel
`0`, from a fresh filter two `Insert`s return `true` and two `Delete`s return
`true`, but `Lookup` still returns `true` after the second delete (the claim
requires `false`): a lookup of fingerprint `0` matches any empty slot. -/
theorem double_insert_delete_zero_fp :
    ((newFilter 1 4 hZero).Insert [0, 5] []).1 = true ∧
      (((newFilter 1 4 hZero).Insert [0, 5] []).2.Insert [0, 5] []).1 = true ∧
      (c8f2.Delete [0, 5]).1 = true ∧
      c8f3.Lookup [0, 5] = true ∧
      (c8f3.Delete [0, 5]).1 = true ∧
      (c8f3.Delete [0, 5]).2.Lookup [0, 5] = true :=
  ⟨rfl, rfl, rfl, rfl, rfl, rfl⟩

/-- C10: when an item's derived fingerprint is the empty sentinel `0` and one
of its candidate buckets contains an empty slot, `Delete` returns `true` and
decrements the wrapping `uint32` counter — whether or not the item was ever
inserted; at `count = 0` the counter wraps around to `2^32 - 1`. -/
theorem delete_zero_fp_succeeds (f : Filter) (x : List Nat) (hx : x ≠ [])
    (hfp : usedFingerprint f.hash x = some 0)
    (hempty :
      containsIn (f.buckets.getD (itemIndices f.hash f.totalBuckets (pad x)).1 []) 0
          = true ∨
        containsIn (f.buckets.getD (itemIndices f.hash f.totalBuckets (pad x)).2 []) 0
          = true) :
    (f.Delete x).1 = true ∧
      (f.Delete x).2.count = (f.count + (U32 - 1)) % U32 := by
  have hck := check_eq_pad x hx
  have hfp2 : (fingerprintOf (hashOf (pad x) f.hash).2 f.hash).1 = 0 := by
    rw [usedFingerprint, hck] at hfp
    exact Option.some.inj hfp
  rw [Filter.Delete, hck]
  simp only [deleteItem]
  rw [hfp2]
  simp only [itemIndices] at hempty
  set i1 := (indicesOf (hashOf (pad x) f.hash).1
      (fingerprintOf (hashOf (pad x) f.hash).2 f.hash).2 f.totalBuckets).1 with hi1
  set i2 := (indicesOf (hashOf (pad x) f.hash).1
      (fingerprintOf (hashOf (pad x) f.hash).2 f.hash).2 f.totalBuckets).2 with hi2
  set b1 := f.buckets.getD i1 [] with hb1
  set b2 := f.buckets.getD i2 [] with hb2
  rcases h1 : deleteFrom b1 0 with _ | nb1
  · have hc1 : containsIn b1 0 = false := by
      have hiff := deleteFrom_isSome_iff b1 0
      rw [h1] at hiff
      simpa using hiff
    have hc2 : containsIn b2 0 = true := by
      rcases hempty with h | h
      · rw [h] at hc1; simp at hc1
      · exact h
    have h2s := (deleteFrom_isSome_iff b2 0).2 hc2
    rcases h2 : deleteFrom b2 0 with _ | nb2
    · rw [h2] at h2s; simp at h2s
    · simp [h1, h2]
  · simp [h1]

/-- Witness for the amended C3 theorem at hash `hOne` and item `[0,5]`. -/
theorem usedFingerprint_eq_digest_high16_witness :
    usedFingerprint hOne [0, 5] = some (hOne (pad [0, 5]) % U32 / 65536) :=
  usedFingerprint_eq_digest_high16 hOne [0, 5] (by decide)

/-- Witness for C10 at a fresh filter under the all-zero hash: the delete of a
never-inserted item succeeds and the counter wraps from `0` to `2^32 - 1`. -/
theorem delete_zero_fp_succeeds_witness :
    (((newFilter 1 4 hZero).Delete [0, 5]).1 = true ∧
      ((newFilter 1 4 hZero).Delete [0, 5]).2.count
        = ((newFilter 1 4 hZero).count + (U32 - 1)) % U32) ∧
      ((newFilter 1 4 hZero).Delete [0, 5]).2.count = 4294967295 :=
  ⟨delete_zero_fp_succeeds (newFilter 1 4 hZero) [0, 5] (by decide) (by decide)
    (Or.inl (by decide)), by decide⟩

/-! ## C7: the eviction loop is bounded -/

/-- The instrumented eviction loop performs at most `fuel` relocation steps. -/
theorem kickLoopK_le (fuel : Nat) :
    ∀ f ri fp rs, (kickLoopK f fuel ri fp rs).2.2 ≤ fuel := by
  induction fuel with
  | zero => intro f ri fp rs; simp [kickLoopK]
  | succ n ih =>
    intro f ri fp rs
    simp only [kickLoopK]
    split
    · simp
    · simpa using Nat.succ_le_succ (ih _ _ _ _)

/-- The instrumented eviction loop agrees with the source's loop on the result
and the final state. -/
theorem kickLoopK_agrees (fuel : Nat) :
    ∀ f ri fp rs,
      (kickLoopK f fuel ri fp rs).1 = (kickLoop f fuel ri fp rs).1 ∧
        (kickLoopK f fuel ri fp rs).2.1 = (kickLoop f fuel ri fp rs).2 := by
  induction fuel with
  | zero => intro f ri fp rs; simp [kickLoopK, kickLoop]
  | succ n ih =>
    intro f ri fp rs
    simp only [kickLoopK, kickLoop]
    split
    · simp
    · simpa using ih _ _ _ _

/-- C7: a single `insert` performs at most `maxKicks` relocation
(`replaceItem`) steps and terminates with the boolean result of the source's
`insert` — the instrumented insert agrees with `insert` on both the result and
the final state. -/
theorem insert_kicks_le_maxKicks (f : Filter) (x rs : List Nat) :
    (insertK f x rs).2.2 ≤ f.maxKicks ∧
      (insertK f x rs).1 = (insert f x rs).1 ∧
      (insertK f x rs).2.1 = (insert f x rs).2 := by
  simp only [insertK, insert]
  rcases h1 : addToBucket
      (f.buckets.getD
        (indicesOf (hashOf x f.hash).1
          (fingerprintOf (hashOf x f.hash).2 f.hash).2 f.totalBuckets).1 [])
      (fingerprintOf (hashOf x f.hash).2 f.hash).1 with _ | b1
  swap
  · simp [h1]
  rcases h2 : addToBucket
      (f.buckets.getD
        (indicesOf (hashOf x f.hash).1
          (fingerprintOf (hashOf x f.hash).2 f.hash).2 f.totalBuckets).2 [])
      (fingerprintOf (hashOf x f.hash).2 f.hash).1 with _ | b2
  swap
  · simp [h1, h2]
  simp only [h1, h2]
  generalize (if rs.headD 0 % 2 = 0 then
      (indicesOf (hashOf x f.hash).1
        (fingerprintOf (hashOf x f.hash).2 f.hash).2 f.totalBuckets).1
    else
      (indicesOf (hashOf x f.hash).1
        (fingerprintOf (hashOf x f.hash).2 f.hash).2 f.totalBuckets).2) = ri
  obtain ⟨ha, hb⟩ := kickLoopK_agrees f.maxKicks f ri
    (fingerprintOf (hashOf x f.hash).2 f.hash).1 rs.tail
  have hc := kickLoopK_le f.maxKicks f ri
    (fingerprintOf (hashOf x f.hash).2 f.hash).1 rs.tail
  cases hok : (kickLoop f f.maxKicks ri
      (fingerprintOf (hashOf x f.hash).2 f.hash).1 rs.tail).1 <;>
    simp [ha, hb, hok, hc]

/-! ## Counter bookkeeping -/

/-- Whether a call is a plain `Insert`. -/
def Op.isIns : Op → Bool
  | .ins _ _ => true
  | _ => false

/-- Whether a call is a `Delete`. -/
def Op.isDel : Op → Bool
  | .del _ => true
  | _ => false

/-- The eviction loop never touches the counter. -/
theorem kickLoop_count (fuel : Nat) :
    ∀ f ri fp rs, (kickLoop f fuel ri fp rs).2.count = f.count := by
  induction fuel with
  | zero => intro f ri fp rs; simp [kickLoop]
  | succ n ih =>
    intro f ri fp rs
    simp only [kickLoop]
    split
    · simp [replaceItem]
    · rw [ih]; simp [replaceItem]

/-- `insert` bumps the wrapping counter exactly when it succeeds. -/
theorem insert_count (f : Filter) (x rs : List Nat) :
    (insert f x rs).2.count
      = if (insert f x rs).1 = true then (f.count + 1) % U32 else f.count := by
  simp only [insert]
  rcases h1 : addToBucket
      (f.buckets.getD
        (indicesOf (hashOf x f.hash).1
          (fingerprintOf (hashOf x f.hash).2 f.hash).2 f.totalBuckets).1 [])
      (fingerprintOf (hashOf x f.hash).2 f.hash).1 with _ | b1
  swap
  · simp [h1]
  rcases h2 : addToBucket
      (f.buckets.getD
        (indicesOf (hashOf x f.hash).1
          (fingerprintOf (hashOf x f.hash).2 f.hash).2 f.totalBuckets).2 [])
      (fingerprintOf (hashOf x f.hash).2 f.hash).1 with _ | b2
  swap
  · simp [h1, h2]
  simp only [h1, h2]
  generalize (if rs.headD 0 % 2 = 0 then
      (indicesOf (hashOf x f.hash).1
        (fingerprintOf (hashOf x f.hash).2 f.hash).2 f.totalBuckets).1
    else
      (indicesOf (hashOf x f.hash).1
        (fingerprintOf (hashOf x f.hash).2 f.hash).2 f.totalBuckets).2) = ri
  have hk := kickLoop_count f.maxKicks f ri
    (fingerprintOf (hashOf x f.hash).2 f.hash).1 rs.tail
  cases hok : (kickLoop f f.maxKicks ri
      (fingerprintOf (hashOf x f.hash).2 f.hash).1 rs.tail).1 <;>
    simp [hok, hk]

/-- `deleteItem` decrements the wrapping counter exactly when it succeeds. -/
theorem deleteItem_count (f : Filter) (x : List Nat) :
    (deleteItem f x).2.count
      = if (deleteItem f x).1 = true then (f.count + (U32 - 1)) % U32
        else f.count := by
  simp only [deleteItem]
  rcases h1 : deleteFrom
      (f.buckets.getD
        (indicesOf (hashOf x f.hash).1
          (fingerprintOf (hashOf x f.hash).2 f.hash).2 f.totalBuckets).1 [])
      (fingerprintOf (hashOf x f.hash).2 f.hash).1 with _ | b1
  swap
  · simp [h1]
  rcases h2 : deleteFrom
      (f.buckets.getD
        (indicesOf (hashOf x f.hash).1
          (fingerprintOf (hashOf x f.hash).2 f.hash).2 f.totalBuckets).2 [])
      (fingerprintOf (hashOf x f.hash).2 f.hash).1 with _ | b2
  · simp [h1, h2]
  · simp [h1, h2]

/-- Public `Insert` and the counter. -/
theorem Insert_count (f : Filter) (x rs : List Nat) :
    (f.Insert x rs).2.count
      = if (f.Insert x rs).1 = true then (f.count + 1) % U32 else f.count := by
  cases hc : check x with
  | none => simp [Filter.Insert, hc]
  | some x2 =>
    simp only [Filter.Insert, hc]
    exact insert_count f x2 rs

/-- Public `Delete` and the counter. -/
theorem Delete_count (f : Filter) (x : List Nat) :
    (f.Delete x).2.count
      = if (f.Delete x).1 = true then (f.count + (U32 - 1)) % U32
        else f.count := by
  cases hc : check x with
  | none => simp [Filter.Delete, hc]
  | some x2 =>
    simp only [Filter.Delete, hc]
    exact deleteItem_count f x2

/-- The counter congruence for sequences of `Insert`/`Delete` calls that all
succeed, from an arbitrary starting state. -/
theorem runOps_count_congruent (ops : List Op) :
    ∀ f : Filter,
      (∀ op ∈ ops, op.isIns = true ∨ op.isDel = true) →
      (∀ r ∈ (runOps f ops).1, r = true) →
      ((runOps f ops).2.count : Int) % (U32 : Int)
        = ((f.count : Int) + (ops.countP Op.isIns : Int)
            - (ops.countP Op.isDel : Int)) % (U32 : Int) := by
  induction ops with
  | nil => intro f _ _; simp [runOps]
  | cons op ops ih =>
    intro f hK hR
    have hop := hK op (List.mem_cons_self _ _)
    have hr1 : (runOp f op).1 = true := by
      apply hR
      simp [runOps]
    have hRrest : ∀ r ∈ (runOps (runOp f op).2 ops).1, r = true := by
      intro r hr
      apply hR
      simp only [runOps]
      exact List.mem_cons_of_mem _ hr
    have hKrest : ∀ o ∈ ops, o.isIns = true ∨ o.isDel = true := by
      intro o ho
      exact hK o (List.mem_cons_of_mem _ ho)
    have hrec := ih (runOp f op).2 hKrest hRrest
    have hstep : ((runOps f (op :: ops)).2 = (runOps (runOp f op).2 ops).2) := by
      simp [runOps]
    rw [hstep, hrec]
    rcases op with ⟨x, rs⟩ | ⟨x, rs⟩ | x | x
    · -- Insert
      simp only [runOp] at hr1 ⊢
      have hcnt := Insert_count f x rs
      rw [hr1] at hcnt
      simp only [if_pos] at hcnt
      rw [hcnt]
      simp only [Op.isIns, Op.isDel, List.countP_cons]
      push_cast [U32]
      omega
    · -- InsertUnique does not occur
      simp [Op.isIns, Op.isDel] at hop
    · -- Lookup does not occur
      simp [Op.isIns, Op.isDel] at hop
    · -- Delete
      simp only [runOp] at hr1 ⊢
      have hcnt := Delete_count f x
      rw [hr1] at hcnt
      simp only [if_pos] at hcnt
      rw [hcnt]
      simp only [Op.isIns, Op.isDel, List.countP_cons]
      push_cast [U32]
      omega

/-- Every public call leaves the counter below `2^32`. -/
theorem runOp_count_lt (f : Filter) (op : Op) (h : f.count < U32) :
    (runOp f op).2.count < U32 := by
  have hU : 0 < U32 := by norm_num [U32]
  rcases op with ⟨x, rs⟩ | ⟨x, rs⟩ | x | x
  · simp only [runOp]
    rw [Insert_count]
    split
    · exact Nat.mod_lt _ hU
    · exact h
  · simp only [runOp, Filter.InsertUnique]
    cases hc : check x with
    | none => exact h
    | some x2 =>
      simp only []
      split
      · exact h
      · rw [insert_count]
        split
        · exact Nat.mod_lt _ hU
        · exact h
  · simpa [runOp] using h
  · simp only [runOp]
    rw [Delete_count]
    split
    · exact Nat.mod_lt _ hU
    · exact h

/-- Any run from a state with in-range counter keeps the counter in range. -/
theorem runOps_count_lt (ops : List Op) :
    ∀ f : Filter, f.count < U32 → (runOps f ops).2.count < U32 := by
  induction ops with
  | nil => intro f h; simpa [runOps] using h
  | cons op ops ih =>
    intro f h
    have hstep : (runOps f (op :: ops)).2 = (runOps (runOp f op).2 ops).2 := by
      simp [runOps]
    rw [hstep]
    exact ih _ (runOp_count_lt f op h)

/-- C6 (amended): after a sequence consisting solely of `Insert` and `Delete`
calls that all returned `true`, with `N` inserts and `M` deletes, the counter
satisfies `Count ≡ N - M (mod 2^32)` — the `uint32` counter wraps when the
successful deletes outnumber the successful inserts; whenever `M ≤ N` (in
particular whenever every successful delete matches an earlier successful
insert) and `N - M < 2^32`, `Count() = N - M` exactly. -/
theorem count_congruent_inserts_minus_deletes (tb bs : Nat) (H : Hash32)
    (ops : List Op)
    (hkind : ∀ op ∈ ops, op.isIns = true ∨ op.isDel = true)
    (hok : ∀ r ∈ (runOps (newFilter tb bs H) ops).1, r = true) :
    ((runOps (newFilter tb bs H) ops).2.Count : Int) % (U32 : Int)
        = ((ops.countP Op.isIns : Int) - (ops.countP Op.isDel : Int)) % (U32 : Int)
      ∧ (ops.countP Op.isDel ≤ ops.countP Op.isIns →
          ops.countP Op.isIns - ops.countP Op.isDel < U32 →
          (runOps (newFilter tb bs H) ops).2.Count
            = ops.countP Op.isIns - ops.countP Op.isDel) := by
  have hcong := runOps_count_congruent ops (newFilter tb bs H) hkind hok
  have hzero : (newFilter tb bs H).count = 0 := rfl
  rw [hzero] at hcong
  have hlt := runOps_count_lt ops (newFilter tb bs H) (by norm_num [newFilter, U32])
  constructor
  · simpa [Filter.Count] using hcong
  · intro hMN hNM
    simp only [Filter.Count]
    push_cast [U32] at hcong
    simp only [U32] at hlt hNM
    omega

/-- Witness for the amended C6 theorem: one successful insert, no deletes,
`Count = 1 - 0`. -/
theorem count_congruent_inserts_minus_deletes_witness :
    (((runOps (newFilter 4 1 hOne) [Op.ins [0, 5] []]).2.Count : Int) % (U32 : Int)
        = (([Op.ins [0, 5] []].countP Op.isIns : Int)
            - ([Op.ins [0, 5] []].countP Op.isDel : Int)) % (U32 : Int))
      ∧ ([Op.ins [0, 5] []].countP Op.isDel ≤ [Op.ins [0, 5] []].countP Op.isIns →
          [Op.ins [0, 5] []].countP Op.isIns
              - [Op.ins [0, 5] []].countP Op.isDel < U32 →
          (runOps (newFilter 4 1 hOne) [Op.ins [0, 5] []]).2.Count
            = [Op.ins [0, 5] []].countP Op.isIns
                - [Op.ins [0, 5] []].countP Op.isDel) :=
  count_congruent_inserts_minus_deletes 4 1 hOne [Op.ins [0, 5] []]
    (by decide) (by decide)

/-! ## Occupancy machinery for the capacity invariant -/

/-- Number of occupied (non-sentinel) slots in a bucket. -/
def occB : List Nat → Nat
  | [] => 0
  | y :: ys => (if y = 0 then 0 else 1) + occB ys

/-- Total number of occupied slots in the table. -/
def occupancy : List (List Nat) → Nat
  | [] => 0
  | b :: l => occB b + occupancy l

/-- A bucket with no empty slot. -/
def FullB (b : List Nat) : Prop := ∀ y ∈ b, y ≠ 0

/-- Structural well-formedness of a filter state. -/
structure Shape (tb bs : Nat) (H : Hash32) (f : Filter) : Prop where
  hlen : f.buckets.length = tb
  hble : ∀ b ∈ f.buckets, b.length = bs
  htb : f.totalBuckets = tb
  hh : f.hash = H

/-- The counter equals the occupancy, on top of the structural invariant. -/
def WF (tb bs : Nat) (H : Hash32) (f : Filter) : Prop :=
  Shape tb bs H f ∧ f.count = occupancy f.buckets

theorem occB_le_length (b : List Nat) : occB b ≤ b.length := by
  induction b with
  | nil => simp [occB]
  | cons y ys ih =>
    simp only [occB, List.length_cons]
    split <;> omega

theorem occupancy_le (bs : Nat) (l : List (List Nat))
    (h : ∀ b ∈ l, b.length = bs) : occupancy l ≤ bs * l.length := by
  induction l with
  | nil => simp [occupancy]
  | cons b l ih =>
    simp only [occupancy, List.length_cons, Nat.mul_succ]
    have h1 : occB b ≤ bs := by
      have h2 := occB_le_length b
      rw [h b (List.mem_cons_self _ _)] at h2
      exact h2
    have h3 := ih (fun b2 hb2 => h b2 (List.mem_cons_of_mem _ hb2))
    omega

theorem getD_mem {α : Type} (l : List α) (k : Nat) (d : α) (hk : k < l.length) :
    l.getD k d ∈ l := by
  rw [List.getD_eq_getElem l d hk]
  exact List.getElem_mem hk

theorem getD_set_self {α : Type} (l : List α) (i : Nat) (a d : α)
    (h : i < l.length) : (l.set i a).getD i d = a := by
  induction l generalizing i with
  | nil => simp at h
  | cons y ys ih =>
    cases i with
    | zero => simp
    | succ n => simpa using ih n (by simpa using h)

theorem getD_set_ne {α : Type} (l : List α) (i j : Nat) (a d : α)
    (h : i ≠ j) : (l.set i a).getD j d = l.getD j d := by
  induction l generalizing i j with
  | nil => simp
  | cons y ys ih =>
    cases i with
    | zero =>
      cases j with
      | zero => exact absurd rfl h
      | succ m => simp
    | succ n =>
      cases j with
      | zero => simp
      | succ m => simpa using ih n m (fun hc => h (by rw [hc]))

theorem getD_replicate {α : Type} (n i : Nat) (a d : α) (h : i < n) :
    (List.replicate n a).getD i d = a := by
  induction n generalizing i with
  | zero => omega
  | succ m ih =>
    cases i with
    | zero => simp [List.replicate_succ]
    | succ k => simpa [List.replicate_succ] using ih k (by omega)

theorem occB_set (b : List Nat) (k v : Nat) (hk : k < b.length) :
    occB (b.set k v) + (if b.getD k 0 = 0 then 0 else 1)
      = occB b + (if v = 0 then 0 else 1) := by
  induction b generalizing k with
  | nil => simp at hk
  | cons y ys ih =>
    cases k with
    | zero =>
      simp only [List.set_cons_zero, occB, List.getD_cons_zero]
      split <;> split <;> omega
    | succ n =>
      simp only [List.set_cons_succ, occB, List.getD_cons_succ]
      have h2 := ih n (by simpa using hk)
      omega

theorem occupancy_set (l : List (List Nat)) (i : Nat) (b2 : List Nat)
    (hi : i < l.length) :
    occupancy (l.set i b2) + occB (l.getD i []) = occupancy l + occB b2 := by
  induction l generalizing i with
  | nil => simp at hi
  | cons b l ih =>
    cases i with
    | zero => simp only [List.set_cons_zero, occupancy, List.getD_cons_zero]; omega
    | succ n =>
      simp only [List.set_cons_succ, occupancy, List.getD_cons_succ]
      have h2 := ih n (by simpa using hi)
      omega

theorem addToBucket_none (b : List Nat) (fp : Nat) :
    addToBucket b fp = none → FullB b := by
  induction b with
  | nil => intro _ y hy; simp at hy
  | cons y ys ih =>
    intro h z hz
    simp only [addToBucket] at h
    by_cases hy : y = 0
    · rw [if_neg (fun hc => hc hy)] at h
      simp at h
    · rw [if_pos hy] at h
      rw [Option.map_eq_none'] at h
      rcases List.mem_cons.1 hz with rfl | hz2
      · exact hy
      · exact ih h z hz2

theorem addToBucket_some (b : List Nat) (fp : Nat) (b2 : List Nat) :
    addToBucket b fp = some b2 →
      b2.length = b.length ∧ occB b2 = occB b + (if fp = 0 then 0 else 1) := by
  induction b generalizing b2 with
  | nil => intro h; cases h
  | cons y ys ih =>
    intro h
    simp only [addToBucket] at h
    by_cases hy : y = 0
    · rw [if_neg (fun hc => hc hy)] at h
      obtain rfl := Option.some.inj h
      subst hy
      refine ⟨by simp, ?_⟩
      have h0 : occB (0 :: ys) = occB ys := by simp [occB]
      rw [h0]
      simp only [occB]
      omega
    · rw [if_pos hy] at h
      rcases Option.map_eq_some'.1 h with ⟨ys2, hys2, rfl⟩
      obtain ⟨hl, ho⟩ := ih ys2 hys2
      refine ⟨by simp [hl], ?_⟩
      simp only [occB, ho]
      omega

theorem deleteFrom_some (b : List Nat) (fp : Nat) (b2 : List Nat) :
    deleteFrom b fp = some b2 → fp ≠ 0 →
      b2.length = b.length ∧ occB b2 + 1 = occB b := by
  induction b generalizing b2 with
  | nil => intro h _; cases h
  | cons y ys ih =>
    intro h hfp
    simp only [deleteFrom] at h
    by_cases hy : y = fp
    · rw [if_pos hy] at h
      obtain rfl := Option.some.inj h
      subst hy
      refine ⟨by simp, ?_⟩
      have h0 : occB (0 :: ys) = occB ys := by simp [occB]
      rw [h0]
      simp only [occB, if_neg hfp]
      omega
    · rw [if_neg hy] at h
      rcases Option.map_eq_some'.1 h with ⟨ys2, hys2, rfl⟩
      obtain ⟨hl, ho⟩ := ih ys2 hys2 hfp
      refine ⟨by simp [hl], ?_⟩
      simp only [occB]
      omega

/-- Replacing one bucket by a same-length bucket preserves the shape. -/
theorem Shape_set (tb bs : Nat) (H : Hash32) (f : Filter)
    (hS : Shape tb bs H f) (i : Nat) (b2 : List Nat) (hlen : b2.length = bs) :
    Shape tb bs H { f with buckets := f.buckets.set i b2 } := by
  obtain ⟨h1, h2, h3, h4⟩ := hS
  refine ⟨by simpa using h1, ?_, h3, h4⟩
  intro b hb
  rcases List.mem_or_eq_of_mem_set hb with hb2 | rfl
  · exact h2 b hb2
  · exact hlen

/-- In a well-shaped filter every in-range bucket has length `bs`. -/
theorem Shape_getD_len (tb bs : Nat) (H : Hash32) (f : Filter)
    (hS : Shape tb bs H f) (i : Nat) (hi : i < tb) :
    (f.buckets.getD i []).length = bs := by
  apply hS.hble
  apply getD_mem
  rw [hS.hlen]
  exact hi

/-- Behaviour of one `replaceItem` call on a full victim bucket: shape and
counter are preserved, the returned index is in range, the evicted
fingerprint is occupied (nonzero), and the total occupancy is unchanged. -/
theorem replaceItem_spec (tb bs : Nat) (H : Hash32) (hbs : 0 < bs)
    (htb : 0 < tb) (f : Filter) (i fp r : Nat) (hS : Shape tb bs H f)
    (hi : i < tb) (hfull : FullB (f.buckets.getD i [])) (hfp : fp ≠ 0) :
    Shape tb bs H (replaceItem f i fp r).2.2 ∧
      (replaceItem f i fp r).2.2.count = f.count ∧
      (replaceItem f i fp r).1 < tb ∧
      (replaceItem f i fp r).2.1 ≠ 0 ∧
      occupancy (replaceItem f i fp r).2.2.buckets = occupancy f.buckets := by
  have hblen := Shape_getD_len tb bs H f hS i hi
  have hk : r % (f.buckets.getD i []).length < (f.buckets.getD i []).length := by
    rw [hblen]
    exact Nat.mod_lt _ hbs
  have hrfp : (f.buckets.getD i []).getD (r % (f.buckets.getD i []).length) 0 ≠ 0 :=
    hfull _ (getD_mem _ _ _ hk)
  refine ⟨?_, rfl, ?_, hrfp, ?_⟩
  · show Shape tb bs H { f with buckets := f.buckets.set i ((f.buckets.getD i []).set (r % (f.buckets.getD i []).length) fp) }
    apply Shape_set tb bs H f hS
    rw [List.length_set]
    exact hblen
  · show (i ^^^ (hashOf (toBytes2 fp) f.hash).1) % f.totalBuckets < tb
    rw [hS.htb]
    exact Nat.mod_lt _ htb
  · show occupancy (f.buckets.set i
        ((f.buckets.getD i []).set (r % (f.buckets.getD i []).length) fp))
      = occupancy f.buckets
    have hsets := occupancy_set f.buckets i
      ((f.buckets.getD i []).set (r % (f.buckets.getD i []).length) fp)
      (by rw [hS.hlen]; exact hi)
    have hob := occB_set (f.buckets.getD i [])
      (r % (f.buckets.getD i []).length) fp hk
    rw [if_neg hrfp, if_neg hfp] at hob
    omega

/-- The eviction loop, run on a full victim bucket with an occupied incoming
fingerprint, preserves the shape and the counter, and raises the occupancy by
one exactly when it reports success. -/
theorem kickLoop_shape (tb bs : Nat) (H : Hash32) (hbs : 0 < bs)
    (htb : 0 < tb) (fuel : Nat) :
    ∀ f ri fp rs, Shape tb bs H f → ri < tb → fp ≠ 0 →
      FullB (f.buckets.getD ri []) →
      Shape tb bs H (kickLoop f fuel ri fp rs).2 ∧
        (kickLoop f fuel ri fp rs).2.count = f.count ∧
        occupancy (kickLoop f fuel ri fp rs).2.buckets
          = occupancy f.buckets
            + (if (kickLoop f fuel ri fp rs).1 = true then 1 else 0) := by
  induction fuel with
  | zero =>
    intro f ri fp rs hS _ _ _
    exact ⟨hS, rfl, by simp [kickLoop]⟩
  | succ n ih =>
    intro f ri fp rs hS hri hfp hfull
    obtain ⟨hS2, hc2, hj, hrfp, hocc⟩ :=
      replaceItem_spec tb bs H hbs htb f ri fp (rs.headD 0) hS hri hfull hfp
    rcases hadd : addToBucket
        ((replaceItem f ri fp (rs.headD 0)).2.2.buckets.getD
          (replaceItem f ri fp (rs.headD 0)).1 [])
        (replaceItem f ri fp (rs.headD 0)).2.1 with _ | b3
    · have hfull2 := addToBucket_none _ _ hadd
      obtain ⟨hS3, hc3, hocc3⟩ := ih (replaceItem f ri fp (rs.headD 0)).2.2
        (replaceItem f ri fp (rs.headD 0)).1
        (replaceItem f ri fp (rs.headD 0)).2.1 rs.tail hS2 hj hrfp hfull2
      simp only [kickLoop, hadd]
      refine ⟨hS3, hc3.trans hc2, ?_⟩
      rw [hocc3, hocc]
    · obtain ⟨hlen3, hocc3⟩ := addToBucket_some _ _ _ hadd
      rw [if_neg hrfp] at hocc3
      have hblen2 := Shape_getD_len tb bs H _ hS2
        (replaceItem f ri fp (rs.headD 0)).1 hj
      simp only [kickLoop, hadd]
      refine ⟨?_, ?_, ?_⟩
      · exact Shape_set tb bs H _ hS2 _ b3 (hlen3.trans hblen2)
      · exact hc2
      · show occupancy ((replaceItem f ri fp (rs.headD 0)).2.2.buckets.set
            (replaceItem f ri fp (rs.headD 0)).1 b3)
          = occupancy f.buckets + 1
        have hsets := occupancy_set
          (replaceItem f ri fp (rs.headD 0)).2.2.buckets
          (replaceItem f ri fp (rs.headD 0)).1 b3
          (by rw [hS2.hlen]; exact hj)
        omega

/-- A successful direct placement preserves the counter-occupancy invariant. -/
theorem WF_after_add (tb bs : Nat) (H : Hash32) (hcap : bs * tb < U32)
    (f : Filter) (i fp : Nat) (b2 : List Nat) (hS : Shape tb bs H f)
    (hcnt : f.count = occupancy f.buckets) (hi : i < tb)
    (hadd : addToBucket (f.buckets.getD i []) fp = some b2) (hfp : fp ≠ 0) :
    WF tb bs H { f with buckets := f.buckets.set i b2, count := (f.count + 1) % U32 } := by
  obtain ⟨hlb, hob⟩ := addToBucket_some _ _ _ hadd
  rw [if_neg hfp] at hob
  have hblen := Shape_getD_len tb bs H f hS i hi
  have hS2 := Shape_set tb bs H f hS i b2 (hlb.trans hblen)
  have hsets := occupancy_set f.buckets i b2 (by rw [hS.hlen]; exact hi)
  have h3 := occupancy_le bs (f.buckets.set i b2) (fun b hb => hS2.hble b hb)
  rw [List.length_set, hS.hlen] at h3
  refine ⟨⟨hS2.hlen, hS2.hble, hS2.htb, hS2.hh⟩, ?_⟩
  show (f.count + 1) % U32 = occupancy (f.buckets.set i b2)
  rw [hcnt]
  simp only [U32] at *
  omega

/-- A successful removal preserves the counter-occupancy invariant (the
wrapping decrement cannot underflow, since the counter equals the occupancy
and a slot was just occupied). -/
theorem WF_after_del (tb bs : Nat) (H : Hash32) (hcap : bs * tb < U32)
    (f : Filter) (i fp : Nat) (b2 : List Nat) (hS : Shape tb bs H f)
    (hcnt : f.count = occupancy f.buckets) (hi : i < tb)
    (hdel : deleteFrom (f.buckets.getD i []) fp = some b2) (hfp : fp ≠ 0) :
    WF tb bs H { f with buckets := f.buckets.set i b2, count := (f.count + (U32 - 1)) % U32 } := by
  obtain ⟨hlb, hob⟩ := deleteFrom_some _ _ _ hdel hfp
  have hblen := Shape_getD_len tb bs H f hS i hi
  have hS2 := Shape_set tb bs H f hS i b2 (hlb.trans hblen)
  have hsets := occupancy_set f.buckets i b2 (by rw [hS.hlen]; exact hi)
  have h3 := occupancy_le bs (f.buckets.set i b2) (fun b hb => hS2.hble b hb)
  rw [List.length_set, hS.hlen] at h3
  refine ⟨⟨hS2.hlen, hS2.hble, hS2.htb, hS2.hh⟩, ?_⟩
  show (f.count + (U32 - 1)) % U32 = occupancy (f.buckets.set i b2)
  rw [hcnt]
  simp only [U32] at *
  omega

/-- `insert` preserves the invariant when the fingerprint is occupied. -/
theorem insert_wf (tb bs : Nat) (H : Hash32) (hbs : 0 < bs) (htb : 0 < tb)
    (hcap : bs * tb < U32) (f : Filter) (x rs : List Nat)
    (hS : Shape tb bs H f) (hcnt : f.count = occupancy f.buckets)
    (hfp : (fingerprintOf (hashOf x H).2 H).1 ≠ 0) :
    WF tb bs H (insert f x rs).2 := by
  have hhh : f.hash = H := hS.hh
  have httb : f.totalBuckets = tb := hS.htb
  subst hhh
  subst httb
  have hi1 : (indicesOf (hashOf x f.hash).1 (fingerprintOf (hashOf x f.hash).2 f.hash).2 f.totalBuckets).1 < f.totalBuckets := by
    simp only [indicesOf]
    exact Nat.mod_lt _ htb
  have hi2 : (indicesOf (hashOf x f.hash).1 (fingerprintOf (hashOf x f.hash).2 f.hash).2 f.totalBuckets).2 < f.totalBuckets := by
    simp only [indicesOf]
    exact Nat.mod_lt _ htb
  rcases h1 : addToBucket
      (f.buckets.getD
        (indicesOf (hashOf x f.hash).1 (fingerprintOf (hashOf x f.hash).2 f.hash).2 f.totalBuckets).1 [])
      (fingerprintOf (hashOf x f.hash).2 f.hash).1 with _ | b1
  swap
  · simp only [insert, h1]
    show WF f.totalBuckets bs f.hash { f with buckets := f.buckets.set (indicesOf (hashOf x f.hash).1 (fingerprintOf (hashOf x f.hash).2 f.hash).2 f.totalBuckets).1 b1, count := (f.count + 1) % U32 }
    exact WF_after_add f.totalBuckets bs f.hash hcap f _ _ b1 hS hcnt hi1 h1 hfp
  rcases h2 : addToBucket
      (f.buckets.getD
        (indicesOf (hashOf x f.hash).1 (fingerprintOf (hashOf x f.hash).2 f.hash).2 f.totalBuckets).2 [])
      (fingerprintOf (hashOf x f.hash).2 f.hash).1 with _ | b2
  swap
  · simp only [insert, h1, h2]
    show WF f.totalBuckets bs f.hash { f with buckets := f.buckets.set (indicesOf (hashOf x f.hash).1 (fingerprintOf (hashOf x f.hash).2 f.hash).2 f.totalBuckets).2 b2, count := (f.count + 1) % U32 }
    exact WF_after_add f.totalBuckets bs f.hash hcap f _ _ b2 hS hcnt hi2 h2 hfp
  · simp only [insert, h1, h2]
    have hfull1 := addToBucket_none _ _ h1
    have hfull2 := addToBucket_none _ _ h2
    have hriT : (if rs.headD 0 % 2 = 0 then
        (indicesOf (hashOf x f.hash).1 (fingerprintOf (hashOf x f.hash).2 f.hash).2 f.totalBuckets).1
      else
        (indicesOf (hashOf x f.hash).1 (fingerprintOf (hashOf x f.hash).2 f.hash).2 f.totalBuckets).2) < f.totalBuckets := by
      split
      · exact hi1
      · exact hi2
    have hfullR : FullB (f.buckets.getD (if rs.headD 0 % 2 = 0 then
        (indicesOf (hashOf x f.hash).1 (fingerprintOf (hashOf x f.hash).2 f.hash).2 f.totalBuckets).1
      else
        (indicesOf (hashOf x f.hash).1 (fingerprintOf (hashOf x f.hash).2 f.hash).2 f.totalBuckets).2) []) := by
      split
      · exact hfull1
      · exact hfull2
    obtain ⟨hS3, hc3, hocc3⟩ := kickLoop_shape f.totalBuckets bs f.hash hbs htb f.maxKicks f
      (if rs.headD 0 % 2 = 0 then
        (indicesOf (hashOf x f.hash).1 (fingerprintOf (hashOf x f.hash).2 f.hash).2 f.totalBuckets).1
      else
        (indicesOf (hashOf x f.hash).1 (fingerprintOf (hashOf x f.hash).2 f.hash).2 f.totalBuckets).2)
      (fingerprintOf (hashOf x f.hash).2 f.hash).1 rs.tail hS hriT hfp hfullR
    cases hok : (kickLoop f f.maxKicks
        (if rs.headD 0 % 2 = 0 then
          (indicesOf (hashOf x f.hash).1 (fingerprintOf (hashOf x f.hash).2 f.hash).2 f.totalBuckets).1
        else
          (indicesOf (hashOf x f.hash).1 (fingerprintOf (hashOf x f.hash).2 f.hash).2 f.totalBuckets).2)
        (fingerprintOf (hashOf x f.hash).2 f.hash).1 rs.tail).1 with
    | false =>
      show WF f.totalBuckets bs f.hash (kickLoop f f.maxKicks
        (if rs.headD 0 % 2 = 0 then
          (indicesOf (hashOf x f.hash).1 (fingerprintOf (hashOf x f.hash).2 f.hash).2 f.totalBuckets).1
        else
          (indicesOf (hashOf x f.hash).1 (fingerprintOf (hashOf x f.hash).2 f.hash).2 f.totalBuckets).2)
        (fingerprintOf (hashOf x f.hash).2 f.hash).1 rs.tail).2
      refine ⟨hS3, ?_⟩
      rw [hc3, hcnt, hocc3, hok]
      simp
    | true =>
      have hocc4 : occupancy (kickLoop f f.maxKicks
          (if rs.headD 0 % 2 = 0 then
            (indicesOf (hashOf x f.hash).1 (fingerprintOf (hashOf x f.hash).2 f.hash).2 f.totalBuckets).1
          else
            (indicesOf (hashOf x f.hash).1 (fingerprintOf (hashOf x f.hash).2 f.hash).2 f.totalBuckets).2)
          (fingerprintOf (hashOf x f.hash).2 f.hash).1 rs.tail).2.buckets
          = occupancy f.buckets + 1 := by
        rw [hocc3, hok]
        simp
      show WF f.totalBuckets bs f.hash { (kickLoop f f.maxKicks
        (if rs.headD 0 % 2 = 0 then
          (indicesOf (hashOf x f.hash).1 (fingerprintOf (hashOf x f.hash).2 f.hash).2 f.totalBuckets).1
        else
          (indicesOf (hashOf x f.hash).1 (fingerprintOf (hashOf x f.hash).2 f.hash).2 f.totalBuckets).2)
        (fingerprintOf (hashOf x f.hash).2 f.hash).1 rs.tail).2 with count := ((kickLoop f f.maxKicks (if rs.headD 0 % 2 = 0 then (indicesOf (hashOf x f.hash).1 (fingerprintOf (hashOf x f.hash).2 f.hash).2 f.totalBuckets).1 else (indicesOf (hashOf x f.hash).1 (fingerprintOf (hashOf x f.hash).2 f.hash).2 f.totalBuckets).2) (fingerprintOf (hashOf x f.hash).2 f.hash).1 rs.tail).2.count + 1) % U32 }
      refine ⟨⟨hS3.hlen, hS3.hble, hS3.htb, hS3.hh⟩, ?_⟩
      have hb2 := occupancy_le bs
        (kickLoop f f.maxKicks
          (if rs.headD 0 % 2 = 0 then
            (indicesOf (hashOf x f.hash).1 (fingerprintOf (hashOf x f.hash).2 f.hash).2 f.totalBuckets).1
          else
            (indicesOf (hashOf x f.hash).1 (fingerprintOf (hashOf x f.hash).2 f.hash).2 f.totalBuckets).2)
          (fingerprintOf (hashOf x f.hash).2 f.hash).1 rs.tail).2.buckets
        (fun b hb => hS3.hble b hb)
      rw [hS3.hlen] at hb2
      show ((kickLoop f f.maxKicks
        (if rs.headD 0 % 2 = 0 then
          (indicesOf (hashOf x f.hash).1 (fingerprintOf (hashOf x f.hash).2 f.hash).2 f.totalBuckets).1
        else
          (indicesOf (hashOf x f.hash).1 (fingerprintOf (hashOf x f.hash).2 f.hash).2 f.totalBuckets).2)
        (fingerprintOf (hashOf x f.hash).2 f.hash).1 rs.tail).2.count + 1) % U32
          = occupancy (kickLoop f f.maxKicks
        (if rs.headD 0 % 2 = 0 then
          (indicesOf (hashOf x f.hash).1 (fingerprintOf (hashOf x f.hash).2 f.hash).2 f.totalBuckets).1
        else
          (indicesOf (hashOf x f.hash).1 (fingerprintOf (hashOf x f.hash).2 f.hash).2 f.totalBuckets).2)
        (fingerprintOf (hashOf x f.hash).2 f.hash).1 rs.tail).2.buckets
      rw [hc3, hcnt, hocc4]
      rw [hocc4] at hb2
      simp only [U32] at *
      omega

/-- `deleteItem` preserves the invariant when the fingerprint is occupied. -/
theorem deleteItem_wf (tb bs : Nat) (H : Hash32) (htb : 0 < tb)
    (hcap : bs * tb < U32) (f : Filter) (x : List Nat)
    (hS : Shape tb bs H f) (hcnt : f.count = occupancy f.buckets)
    (hfp : (fingerprintOf (hashOf x H).2 H).1 ≠ 0) :
    WF tb bs H (deleteItem f x).2 := by
  have hhh : f.hash = H := hS.hh
  have httb : f.totalBuckets = tb := hS.htb
  subst hhh
  subst httb
  have hi1 : (indicesOf (hashOf x f.hash).1 (fingerprintOf (hashOf x f.hash).2 f.hash).2 f.totalBuckets).1 < f.totalBuckets := by
    simp only [indicesOf]
    exact Nat.mod_lt _ htb
  have hi2 : (indicesOf (hashOf x f.hash).1 (fingerprintOf (hashOf x f.hash).2 f.hash).2 f.totalBuckets).2 < f.totalBuckets := by
    simp only [indicesOf]
    exact Nat.mod_lt _ htb
  rcases h1 : deleteFrom
      (f.buckets.getD
        (indicesOf (hashOf x f.hash).1 (fingerprintOf (hashOf x f.hash).2 f.hash).2 f.totalBuckets).1 [])
      (fingerprintOf (hashOf x f.hash).2 f.hash).1 with _ | b1
  swap
  · simp only [deleteItem, h1]
    show WF f.totalBuckets bs f.hash { f with buckets := f.buckets.set (indicesOf (hashOf x f.hash).1 (fingerprintOf (hashOf x f.hash).2 f.hash).2 f.totalBuckets).1 b1, count := (f.count + (U32 - 1)) % U32 }
    exact WF_after_del f.totalBuckets bs f.hash hcap f _ _ b1 hS hcnt hi1 h1 hfp
  rcases h2 : deleteFrom
      (f.buckets.getD
        (indicesOf (hashOf x f.hash).1 (fingerprintOf (hashOf x f.hash).2 f.hash).2 f.totalBuckets).2 [])
      (fingerprintOf (hashOf x f.hash).2 f.hash).1 with _ | b2
  swap
  · simp only [deleteItem, h1, h2]
    show WF f.totalBuckets bs f.hash { f with buckets := f.buckets.set (indicesOf (hashOf x f.hash).1 (fingerprintOf (hashOf x f.hash).2 f.hash).2 f.totalBuckets).2 b2, count := (f.count + (U32 - 1)) % U32 }
    exact WF_after_del f.totalBuckets bs f.hash hcap f _ _ b2 hS hcnt hi2 h2 hfp
  · simp only [deleteItem, h1, h2]
    exact ⟨hS, hcnt⟩

/-- An item passes `fpOK` when it is rejected by `check` or its derived
fingerprint is not the empty sentinel. -/
def fpOK (H : Hash32) (x : List Nat) : Bool :=
  match check x with
  | none => true
  | some x2 => decide ((fingerprintOf (hashOf x2 H).2 H).1 ≠ 0)

/-- `Insert` preserves the invariant for `fpOK` items. -/
theorem Insert_wf (tb bs : Nat) (H : Hash32) (hbs : 0 < bs) (htb : 0 < tb)
    (hcap : bs * tb < U32) (f : Filter) (x rs : List Nat)
    (hW : WF tb bs H f) (hok : fpOK H x = true) :
    WF tb bs H (f.Insert x rs).2 := by
  obtain ⟨hS, hcnt⟩ := hW
  cases hc : check x with
  | none => simp only [Filter.Insert, hc]; exact ⟨hS, hcnt⟩
  | some x2 =>
    simp only [Filter.Insert, hc]
    apply insert_wf tb bs H hbs htb hcap f x2 rs hS hcnt
    unfold fpOK at hok
    rw [hc] at hok
    simpa using hok

/-- `InsertUnique` preserves the invariant for `fpOK` items. -/
theorem InsertUnique_wf (tb bs : Nat) (H : Hash32) (hbs : 0 < bs) (htb : 0 < tb)
    (hcap : bs * tb < U32) (f : Filter) (x rs : List Nat)
    (hW : WF tb bs H f) (hok : fpOK H x = true) :
    WF tb bs H (f.InsertUnique x rs).2 := by
  obtain ⟨hS, hcnt⟩ := hW
  cases hc : check x with
  | none => simp only [Filter.InsertUnique, hc]; exact ⟨hS, hcnt⟩
  | some x2 =>
    simp only [Filter.InsertUnique, hc]
    split
    · exact ⟨hS, hcnt⟩
    · apply insert_wf tb bs H hbs htb hcap f x2 rs hS hcnt
      unfold fpOK at hok
      rw [hc] at hok
      simpa using hok

/-- `Delete` preserves the invariant for `fpOK` items. -/
theorem Delete_wf (tb bs : Nat) (H : Hash32) (htb : 0 < tb)
    (hcap : bs * tb < U32) (f : Filter) (x : List Nat)
    (hW : WF tb bs H f) (hok : fpOK H x = true) :
    WF tb bs H (f.Delete x).2 := by
  obtain ⟨hS, hcnt⟩ := hW
  cases hc : check x with
  | none => simp only [Filter.Delete, hc]; exact ⟨hS, hcnt⟩
  | some x2 =>
    simp only [Filter.Delete, hc]
    apply deleteItem_wf tb bs H htb hcap f x2 hS hcnt
    unfold fpOK at hok
    rw [hc] at hok
    simpa using hok

/-- Every public call preserves the invariant for `fpOK` items. -/
theorem runOp_wf (tb bs : Nat) (H : Hash32) (hbs : 0 < bs) (htb : 0 < tb)
    (hcap : bs * tb < U32) (f : Filter) (op : Op) (hW : WF tb bs H f)
    (hok : fpOK H op.item = true) : WF tb bs H (runOp f op).2 := by
  rcases op with ⟨x, rs⟩ | ⟨x, rs⟩ | x | x
  · exact Insert_wf tb bs H hbs htb hcap f x rs hW hok
  · exact InsertUnique_wf tb bs H hbs htb hcap f x rs hW hok
  · exact hW
  · exact Delete_wf tb bs H htb hcap f x hW hok

/-- Whole-run preservation of the invariant. -/
theorem runOps_wf (tb bs : Nat) (H : Hash32) (hbs : 0 < bs) (htb : 0 < tb)
    (hcap : bs * tb < U32) (ops : List Op) :
    ∀ f : Filter, WF tb bs H f → (∀ op ∈ ops, fpOK H op.item = true) →
      WF tb bs H (runOps f ops).2 := by
  induction ops with
  | nil => intro f hW _; exact hW
  | cons op ops ih =>
    intro f hW hfp
    have hstep : (runOps f (op :: ops)).2 = (runOps (runOp f op).2 ops).2 := by
      simp [runOps]
    rw [hstep]
    exact ih _ (runOp_wf tb bs H hbs htb hcap f op hW (hfp op (List.mem_cons_self _ _)))
      (fun o ho => hfp o (List.mem_cons_of_mem _ ho))

theorem occB_replicate_zero (n : Nat) : occB (List.replicate n 0) = 0 := by
  induction n with
  | zero => rfl
  | succ m ih => simp [List.replicate_succ, occB, ih]

theorem occupancy_initBuckets (tb bs : Nat) : occupancy (initBuckets tb bs) = 0 := by
  unfold initBuckets
  induction tb with
  | zero => rfl
  | succ n ih => simp [List.replicate_succ, occupancy, occB_replicate_zero, ih]

/-- A fresh filter satisfies the invariant. -/
theorem newFilter_wf (tb bs : Nat) (H : Hash32) : WF tb bs H (newFilter tb bs H) := by
  refine ⟨⟨?_, ?_, rfl, rfl⟩, ?_⟩
  · simp [newFilter, initBuckets]
  · intro b hb
    simp only [newFilter, initBuckets] at hb
    rw [List.eq_of_mem_replicate hb]
    simp
  · show (0 : Nat) = occupancy (initBuckets tb bs)
    rw [occupancy_initBuckets]

/-- C4 (amended): if every item of the call sequence has a nonzero derived
fingerprint, then in every state reachable from a fresh filter by `Insert`,
`InsertUnique`, `Lookup` and `Delete` calls, the occupancy counter never
exceeds `bucketSize × totalBuckets` (positive sizes with capacity below
`2^32`, as both constructors guarantee). -/
theorem count_le_capacity_of_nonzero_fp (tb bs : Nat) (H : Hash32)
    (ops : List Op) (hbs : 0 < bs) (htb : 0 < tb) (hcap : bs * tb < U32)
    (hfp : ∀ op ∈ ops, fpOK H op.item = true) :
    (runOps (newFilter tb bs H) ops).2.count ≤ bs * tb := by
  obtain ⟨hS, hcnt⟩ := runOps_wf tb bs H hbs htb hcap ops (newFilter tb bs H)
    (newFilter_wf tb bs H) hfp
  rw [hcnt]
  have h3 := occupancy_le bs (runOps (newFilter tb bs H) ops).2.buckets hS.hble
  rw [hS.hlen] at h3
  exact h3

/-- Witness for the amended C4 theorem: one insert of a nonzero-fingerprint
item into a fresh `4 × 1` filter keeps the counter within capacity. -/
theorem count_le_capacity_of_nonzero_fp_witness :
    (runOps (newFilter 4 1 hOne) [Op.ins [0, 5] []]).2.count ≤ 1 * 4 :=
  count_le_capacity_of_nonzero_fp 4 1 hOne [Op.ins [0, 5] []]
    (by decide) (by decide) (by decide) (by decide)

/-! ## Step equations and bucket computations for the delete scenario -/

/-- The filter state after two `Insert` calls of the same item. -/
def afterTwoInserts (tb bs : Nat) (H : Hash32) (x rs1 rs2 : List Nat) : Filter :=
  (((newFilter tb bs H).Insert x rs1).2.Insert x rs2).2

theorem addToBucket_zero_cons (l : List Nat) (fp : Nat) :
    addToBucket (0 :: l) fp = some (fp :: l) := by
  simp [addToBucket]

theorem addToBucket_cons_nonzero (l : List Nat) (y fp : Nat) (hy : y ≠ 0) :
    addToBucket (y :: l) fp = (addToBucket l fp).map (fun l2 => y :: l2) := by
  simp [addToBucket, hy]

theorem deleteFrom_head_eq (l : List Nat) (fp : Nat) :
    deleteFrom (fp :: l) fp = some (0 :: l) := by
  simp [deleteFrom]

theorem deleteFrom_head_ne (l : List Nat) (y fp : Nat) (hy : y ≠ fp) :
    deleteFrom (y :: l) fp = (deleteFrom l fp).map (fun l2 => y :: l2) := by
  simp [deleteFrom, hy]

theorem containsIn_head_eq (l : List Nat) (fp : Nat) :
    containsIn (fp :: l) fp = true := by
  simp [containsIn]

theorem containsIn_head_ne (l : List Nat) (y fp : Nat) (hy : y ≠ fp) :
    containsIn (y :: l) fp = containsIn l fp := by
  simp [containsIn, hy]

theorem containsIn_replicate_zero (n fp : Nat) (hfp : fp ≠ 0) :
    containsIn (List.replicate n 0) fp = false := by
  induction n with
  | zero => rfl
  | succ m ih =>
    rw [List.replicate_succ, containsIn_head_ne _ _ _ (fun h => hfp h.symm)]
    exact ih

theorem deleteFrom_replicate_zero (n fp : Nat) (hfp : fp ≠ 0) :
    deleteFrom (List.replicate n 0) fp = none := by
  induction n with
  | zero => rfl
  | succ m ih =>
    rw [List.replicate_succ, deleteFrom_head_ne _ _ _ (fun h => hfp h.symm), ih]
    rfl

/-- Unfolding the `Insert` wrapper on validated input. -/
theorem Insert_eq (f : Filter) (x rs : List Nat) (hck : check x = some (pad x)) :
    f.Insert x rs = insert f (pad x) rs := by
  simp only [Filter.Insert, hck]

/-- Unfolding the `Delete` wrapper on validated input. -/
theorem Delete_eq (f : Filter) (x : List Nat) (hck : check x = some (pad x)) :
    f.Delete x = deleteItem f (pad x) := by
  simp only [Filter.Delete, hck]

/-- The `Lookup` wrapper as the two candidate-bucket scans. -/
theorem Lookup_eq (f : Filter) (x : List Nat) (H : Hash32) (tb : Nat)
    (hh : f.hash = H) (ht : f.totalBuckets = tb)
    (hck : check x = some (pad x)) :
    f.Lookup x
      = (containsIn (f.buckets.getD
            (indicesOf (hashOf (pad x) H).1
              (fingerprintOf (hashOf (pad x) H).2 H).2 tb).1 [])
          (fingerprintOf (hashOf (pad x) H).2 H).1 ||
         containsIn (f.buckets.getD
            (indicesOf (hashOf (pad x) H).1
              (fingerprintOf (hashOf (pad x) H).2 H).2 tb).2 [])
          (fingerprintOf (hashOf (pad x) H).2 H).1) := by
  subst hh
  subst ht
  simp only [Filter.Lookup, hck, lookup]

/-- `insert` when the first candidate bucket has room. -/
theorem insert_hits1 (f : Filter) (x rs : List Nat) (b1 : List Nat)
    (H : Hash32) (tb : Nat) (hh : f.hash = H) (ht : f.totalBuckets = tb)
    (h : addToBucket
        (f.buckets.getD
          (indicesOf (hashOf x H).1 (fingerprintOf (hashOf x H).2 H).2 tb).1 [])
        (fingerprintOf (hashOf x H).2 H).1 = some b1) :
    insert f x rs = (true, { f with buckets := f.buckets.set (indicesOf (hashOf x H).1 (fingerprintOf (hashOf x H).2 H).2 tb).1 b1, count := (f.count + 1) % U32 }) := by
  subst hh
  subst ht
  simp only [insert, h]
  rfl

/-- `insert` when only the second candidate bucket has room. -/
theorem insert_hits2 (f : Filter) (x rs : List Nat) (b2 : List Nat)
    (H : Hash32) (tb : Nat) (hh : f.hash = H) (ht : f.totalBuckets = tb)
    (h1 : addToBucket
        (f.buckets.getD
          (indicesOf (hashOf x H).1 (fingerprintOf (hashOf x H).2 H).2 tb).1 [])
        (fingerprintOf (hashOf x H).2 H).1 = none)
    (h2 : addToBucket
        (f.buckets.getD
          (indicesOf (hashOf x H).1 (fingerprintOf (hashOf x H).2 H).2 tb).2 [])
        (fingerprintOf (hashOf x H).2 H).1 = some b2) :
    insert f x rs = (true, { f with buckets := f.buckets.set (indicesOf (hashOf x H).1 (fingerprintOf (hashOf x H).2 H).2 tb).2 b2, count := (f.count + 1) % U32 }) := by
  subst hh
  subst ht
  simp only [insert, h1, h2]
  rfl

/-- When both candidate buckets are full, `insert`'s result is the loop's. -/
theorem insert_fst_kick (f : Filter) (x rs : List Nat)
    (H : Hash32) (tb : Nat) (hh : f.hash = H) (ht : f.totalBuckets = tb)
    (h1 : addToBucket
        (f.buckets.getD
          (indicesOf (hashOf x H).1 (fingerprintOf (hashOf x H).2 H).2 tb).1 [])
        (fingerprintOf (hashOf x H).2 H).1 = none)
    (h2 : addToBucket
        (f.buckets.getD
          (indicesOf (hashOf x H).1 (fingerprintOf (hashOf x H).2 H).2 tb).2 [])
        (fingerprintOf (hashOf x H).2 H).1 = none) :
    (insert f x rs).1 = (kickLoop f f.maxKicks
      (if rs.headD 0 % 2 = 0 then
        (indicesOf (hashOf x H).1 (fingerprintOf (hashOf x H).2 H).2 tb).1
      else
        (indicesOf (hashOf x H).1 (fingerprintOf (hashOf x H).2 H).2 tb).2)
      (fingerprintOf (hashOf x H).2 H).1 rs.tail).1 := by
  subst hh
  subst ht
  simp only [insert, h1, h2]
  cases hok : (kickLoop f f.maxKicks
      (if rs.headD 0 % 2 = 0 then
        (indicesOf (hashOf x f.hash).1 (fingerprintOf (hashOf x f.hash).2 f.hash).2 f.totalBuckets).1
      else
        (indicesOf (hashOf x f.hash).1 (fingerprintOf (hashOf x f.hash).2 f.hash).2 f.totalBuckets).2)
      (fingerprintOf (hashOf x f.hash).2 f.hash).1 rs.tail).1 with
  | false => exact hok
  | true => rfl

/-- `deleteItem` when the first candidate bucket contains the fingerprint. -/
theorem deleteItem_hits1 (f : Filter) (x : List Nat) (b1 : List Nat)
    (H : Hash32) (tb : Nat) (hh : f.hash = H) (ht : f.totalBuckets = tb)
    (h : deleteFrom
        (f.buckets.getD
          (indicesOf (hashOf x H).1 (fingerprintOf (hashOf x H).2 H).2 tb).1 [])
        (fingerprintOf (hashOf x H).2 H).1 = some b1) :
    deleteItem f x = (true, { f with buckets := f.buckets.set (indicesOf (hashOf x H).1 (fingerprintOf (hashOf x H).2 H).2 tb).1 b1, count := (f.count + (U32 - 1)) % U32 }) := by
  subst hh
  subst ht
  simp only [deleteItem, h]
  rfl

/-- `deleteItem` when only the second candidate bucket contains it. -/
theorem deleteItem_hits2 (f : Filter) (x : List Nat) (b2 : List Nat)
    (H : Hash32) (tb : Nat) (hh : f.hash = H) (ht : f.totalBuckets = tb)
    (h1 : deleteFrom
        (f.buckets.getD
          (indicesOf (hashOf x H).1 (fingerprintOf (hashOf x H).2 H).2 tb).1 [])
        (fingerprintOf (hashOf x H).2 H).1 = none)
    (h2 : deleteFrom
        (f.buckets.getD
          (indicesOf (hashOf x H).1 (fingerprintOf (hashOf x H).2 H).2 tb).2 [])
        (fingerprintOf (hashOf x H).2 H).1 = some b2) :
    deleteItem f x = (true, { f with buckets := f.buckets.set (indicesOf (hashOf x H).1 (fingerprintOf (hashOf x H).2 H).2 tb).2 b2, count := (f.count + (U32 - 1)) % U32 }) := by
  subst hh
  subst ht
  simp only [deleteItem, h1, h2]
  rfl

theorem getD_all_empty (l : List (List Nat)) (h : ∀ b ∈ l, b = []) (i : Nat) :
    l.getD i [] = [] := by
  rcases Nat.lt_or_ge i l.length with hi | hi
  · rw [List.getD_eq_getElem l [] hi]
    exact h _ (List.getElem_mem hi)
  · exact List.getD_eq_default l [] hi

/-- With every bucket empty-shaped (zero slots), the eviction loop can never
place anything and reports failure. -/
theorem kickLoop_empty (fuel : Nat) :
    ∀ f ri fp rs, (∀ b ∈ f.buckets, b = []) →
      (kickLoop f fuel ri fp rs).1 = false := by
  induction fuel with
  | zero => intro f ri fp rs _; rfl
  | succ n ih =>
    intro f ri fp rs hall
    have hemp : f.buckets.getD ri [] = [] := getD_all_empty f.buckets hall ri
    have hset : (f.buckets.getD ri []).set
        (rs.headD 0 % (f.buckets.getD ri []).length) fp = [] := by
      rw [hemp]
      rfl
    have hall2 : ∀ b ∈ (replaceItem f ri fp (rs.headD 0)).2.2.buckets, b = [] := by
      intro b hb
      have hb2 : b ∈ f.buckets.set ri ((f.buckets.getD ri []).set
          (rs.headD 0 % (f.buckets.getD ri []).length) fp) := hb
      rcases List.mem_or_eq_of_mem_set hb2 with h2 | rfl
      · exact hall b h2
      · exact hset
    have hemp2 : (replaceItem f ri fp (rs.headD 0)).2.2.buckets.getD
        (replaceItem f ri fp (rs.headD 0)).1 [] = [] :=
      getD_all_empty _ hall2 _
    have hadd : addToBucket
        ((replaceItem f ri fp (rs.headD 0)).2.2.buckets.getD
          (replaceItem f ri fp (rs.headD 0)).1 [])
        (replaceItem f ri fp (rs.headD 0)).2.1 = none := by
      rw [hemp2]
      rfl
    simp only [kickLoop, hadd]
    exact ih _ _ _ _ hall2

/-- When the victim bucket is the one-slot bucket holding `fp` itself and the
push-to index loops back to the same bucket, the eviction loop spins until the
kick budget is exhausted and reports failure. -/
theorem kickLoop_stuck (fuel : Nat) :
    ∀ f i fp rs, fp ≠ 0 → i < f.buckets.length →
      f.buckets.getD i [] = [fp] →
      (i ^^^ (hashOf (toBytes2 fp) f.hash).1) % f.totalBuckets = i →
      (kickLoop f fuel i fp rs).1 = false := by
  induction fuel with
  | zero => intro f i fp rs _ _ _ _; rfl
  | succ n ih =>
    intro f i fp rs hfp hlen hbuck hidx
    have ht1 : (replaceItem f i fp (rs.headD 0)).1 = i := by
      show (i ^^^ (hashOf (toBytes2 fp) f.hash).1) % f.totalBuckets = i
      exact hidx
    have ht21 : (replaceItem f i fp (rs.headD 0)).2.1 = fp := by
      show (f.buckets.getD i []).getD
        (rs.headD 0 % (f.buckets.getD i []).length) 0 = fp
      rw [hbuck]
      simp [Nat.mod_one]
    have ht22 : (replaceItem f i fp (rs.headD 0)).2.2.buckets
        = f.buckets.set i [fp] := by
      show f.buckets.set i ((f.buckets.getD i []).set
        (rs.headD 0 % (f.buckets.getD i []).length) fp) = f.buckets.set i [fp]
      rw [hbuck]
      simp [Nat.mod_one]
    have hgd : (replaceItem f i fp (rs.headD 0)).2.2.buckets.getD
        (replaceItem f i fp (rs.headD 0)).1 [] = [fp] := by
      rw [ht22, ht1]
      exact getD_set_self _ _ _ _ hlen
    have hadd : addToBucket
        ((replaceItem f i fp (rs.headD 0)).2.2.buckets.getD
          (replaceItem f i fp (rs.headD 0)).1 [])
        (replaceItem f i fp (rs.headD 0)).2.1 = none := by
      rw [hgd, ht21, addToBucket_cons_nonzero _ _ _ hfp]
      rfl
    simp only [kickLoop, hadd]
    apply ih (replaceItem f i fp (rs.headD 0)).2.2
      (replaceItem f i fp (rs.headD 0)).1
      (replaceItem f i fp (rs.headD 0)).2.1 rs.tail
    · rw [ht21]
      exact hfp
    · rw [ht1, ht22, List.length_set]
      exact hlen
    · rw [hgd, ht21]
    · rw [ht1, ht21]
      show (i ^^^ (hashOf (toBytes2 fp) f.hash).1) % f.totalBuckets = i
      exact hidx

/-- `PutUint16` of the fingerprint recovers exactly the two digest bytes the
fingerprint was read from. -/
theorem toBytes2_fingerprint (x2 : List Nat) (H : Hash32) :
    toBytes2 (fingerprintOf (hashOf x2 H).2 H).1 = ((hashOf x2 H).2).take 2 := by
  simp only [hashOf, fingerprintOf, toBytes2, Nat.shiftRight_eq_div_pow,
    List.getD_cons_zero, List.getD_cons_succ, List.take, List.cons.injEq, and_true]
  norm_num
  omega

/-- C8 (amended): for every non-empty item whose derived fingerprint is not
the empty-slot sentinel `0`, starting from a freshly constructed filter, after
two `Insert` calls that both returned `true`: the first `Delete` returns
`true` and leaves `Lookup` returning `true`, and a second `Delete` returns
`true` and leaves `Lookup` returning `false` — each delete clears exactly one
matching slot. -/
theorem double_insert_two_deletes (tb bs : Nat) (H : Hash32)
    (x rs1 rs2 : List Nat) (hx : x ≠ [])
    (hfp0 : usedFingerprint H x ≠ some 0)
    (hins1 : ((newFilter tb bs H).Insert x rs1).1 = true)
    (hins2 : (((newFilter tb bs H).Insert x rs1).2.Insert x rs2).1 = true) :
    ((afterTwoInserts tb bs H x rs1 rs2).Delete x).1 = true ∧
      ((afterTwoInserts tb bs H x rs1 rs2).Delete x).2.Lookup x = true ∧
      (((afterTwoInserts tb bs H x rs1 rs2).Delete x).2.Delete x).1 = true ∧
      (((afterTwoInserts tb bs H x rs1 rs2).Delete x).2.Delete x).2.Lookup x
        = false := by
  have hck := check_eq_pad x hx
  have hfp : (fingerprintOf (hashOf (pad x) H).2 H).1 ≠ 0 := by
    intro hc
    apply hfp0
    rw [usedFingerprint, hck]
    show some (fingerprintOf (hashOf (pad x) H).2 H).1 = some 0
    rw [hc]
  rcases Nat.eq_zero_or_pos tb with rfl | htb
  · exfalso
    have hallE : ∀ b ∈ (newFilter 0 bs H).buckets, b = [] := by
      intro b hb
      have hb2 : b ∈ List.replicate 0 (List.replicate bs 0) := hb
      simp at hb2
    have h1n : addToBucket ((newFilter 0 bs H).buckets.getD
        (indicesOf (hashOf (pad x) H).1
          (fingerprintOf (hashOf (pad x) H).2 H).2 0).1 [])
        (fingerprintOf (hashOf (pad x) H).2 H).1 = none := by
      rw [getD_all_empty _ hallE]
      rfl
    have h2n : addToBucket ((newFilter 0 bs H).buckets.getD
        (indicesOf (hashOf (pad x) H).1
          (fingerprintOf (hashOf (pad x) H).2 H).2 0).2 [])
        (fingerprintOf (hashOf (pad x) H).2 H).1 = none := by
      rw [getD_all_empty _ hallE]
      rfl
    rw [Insert_eq _ _ _ hck, insert_fst_kick _ _ _ H 0 rfl rfl h1n h2n,
      kickLoop_empty _ _ _ _ _ hallE] at hins1
    simp at hins1
  rcases Nat.eq_zero_or_pos bs with rfl | hbs
  · exfalso
    have hallE : ∀ b ∈ (newFilter tb 0 H).buckets, b = [] := by
      intro b hb
      have hb2 : b ∈ List.replicate tb (List.replicate 0 0) := hb
      have hb3 := List.eq_of_mem_replicate hb2
      simpa using hb3
    have h1n : addToBucket ((newFilter tb 0 H).buckets.getD
        (indicesOf (hashOf (pad x) H).1
          (fingerprintOf (hashOf (pad x) H).2 H).2 tb).1 [])
        (fingerprintOf (hashOf (pad x) H).2 H).1 = none := by
      rw [getD_all_empty _ hallE]
      rfl
    have h2n : addToBucket ((newFilter tb 0 H).buckets.getD
        (indicesOf (hashOf (pad x) H).1
          (fingerprintOf (hashOf (pad x) H).2 H).2 tb).2 [])
        (fingerprintOf (hashOf (pad x) H).2 H).1 = none := by
      rw [getD_all_empty _ hallE]
      rfl
    rw [Insert_eq _ _ _ hck, insert_fst_kick _ _ _ H tb rfl rfl h1n h2n,
      kickLoop_empty _ _ _ _ _ hallE] at hins1
    simp at hins1
  obtain ⟨bs', rfl⟩ : ∃ b2, bs = b2 + 1 := ⟨bs - 1, by omega⟩
  clear hbs
  set XH := (hashOf (pad x) H).1 with hXHd
  set FP := (fingerprintOf (hashOf (pad x) H).2 H).1 with hFPd
  set FPH := (fingerprintOf (hashOf (pad x) H).2 H).2 with hFPHd
  set I1 := (indicesOf XH FPH tb).1 with hI1d
  set I2 := (indicesOf XH FPH tb).2 with hI2d
  have hi1 : I1 < tb := Nat.mod_lt _ htb
  have hi2 : I2 < tb := Nat.mod_lt _ htb
  have hNlen : (newFilter tb (bs' + 1) H).buckets.length = tb := by
    show (List.replicate tb (List.replicate (bs' + 1) 0)).length = tb
    simp
  have hLK : ∀ g : Filter, g.hash = H → g.totalBuckets = tb →
      g.Lookup x = (containsIn (g.buckets.getD I1 []) FP ||
        containsIn (g.buckets.getD I2 []) FP) := by
    intro g hh ht
    rw [Lookup_eq g x H tb hh ht hck, hI1d, hI2d, hFPd, hXHd, hFPHd]
  have hKick : ∀ g : Filter, g.hash = H → g.totalBuckets = tb →
      addToBucket (g.buckets.getD I1 []) FP = none →
      addToBucket (g.buckets.getD I2 []) FP = none →
      ∀ rs : List Nat, (insert g (pad x) rs).1
        = (kickLoop g g.maxKicks (if rs.headD 0 % 2 = 0 then I1 else I2)
            FP rs.tail).1 := by
    intro g hh ht ha1 ha2 rs
    rw [insert_fst_kick g (pad x) rs H tb hh ht ha1 ha2, hI1d, hI2d, hFPd,
      hXHd, hFPHd]
  have hrt : toBytes2 FP = ((hashOf (pad x) H).2).take 2 := by
    rw [hFPd]
    exact toBytes2_fingerprint (pad x) H
  rcases Nat.eq_zero_or_pos bs' with rfl | hbs'
  · -- one-slot buckets
    set BA := FP :: List.replicate 0 0 with hBAd
    set F1 := { newFilter tb (0 + 1) H with
        buckets := (newFilter tb (0 + 1) H).buckets.set I1 BA,
        count := ((newFilter tb (0 + 1) H).count + 1) % U32 } with hF1d
    have hN1 : (newFilter tb (0 + 1) H).buckets.getD I1 []
        = 0 :: List.replicate 0 0 := by
      show (List.replicate tb (List.replicate (0 + 1) 0)).getD I1 [] = _
      rw [getD_replicate _ _ _ _ hi1]
      rfl
    have hadd1 : addToBucket ((newFilter tb (0 + 1) H).buckets.getD I1 []) FP
        = some BA := by
      rw [hN1, hBAd]
      exact addToBucket_zero_cons _ _
    have hE1 : insert (newFilter tb (0 + 1) H) (pad x) rs1 = (true, F1) := by
      rw [hF1d]
      exact insert_hits1 _ _ _ _ H tb rfl rfl hadd1
    have hE1s : ((newFilter tb (0 + 1) H).Insert x rs1).2 = F1 := by
      rw [Insert_eq _ _ _ hck, hE1]
    have hF1len : F1.buckets.length = tb := by
      rw [hF1d]
      show ((newFilter tb (0 + 1) H).buckets.set I1 BA).length = tb
      rw [List.length_set]
      exact hNlen
    have hF1I1 : F1.buckets.getD I1 [] = BA := by
      rw [hF1d]
      show ((newFilter tb (0 + 1) H).buckets.set I1 BA).getD I1 [] = BA
      exact getD_set_self _ _ _ _ (by rw [hNlen]; exact hi1)
    have hadd2a : addToBucket (F1.buckets.getD I1 []) FP = none := by
      rw [hF1I1, hBAd, addToBucket_cons_nonzero _ _ _ hfp]
      rfl
    by_cases hii : I2 = I1
    · -- both candidate buckets coincide: the second insert cannot succeed
      exfalso
      have hadd2a' : addToBucket (F1.buckets.getD I2 []) FP = none := by
        rw [hii]
        exact hadd2a
      have hRI : (if rs2.headD 0 % 2 = 0 then I1 else I2) = I1 := by
        by_cases hsp : rs2.headD 0 % 2 = 0
        · rw [if_pos hsp]
        · rw [if_neg hsp]
          exact hii
      have hlen1 : I1 < F1.buckets.length := by
        rw [hF1len]
        exact hi1
      have hbuck1 : F1.buckets.getD I1 [] = [FP] := by
        rw [hF1I1, hBAd]
        rfl
      have hidx1 : (I1 ^^^ (hashOf (toBytes2 FP) F1.hash).1) % F1.totalBuckets
          = I1 := by
        show (I1 ^^^ (hashOf (toBytes2 FP) H).1) % tb = I1
        rw [hrt]
        show I2 = I1
        exact hii
      rw [hE1s, Insert_eq _ _ _ hck, hKick F1 rfl rfl hadd2a hadd2a' rs2, hRI,
        kickLoop_stuck F1.maxKicks F1 I1 FP rs2.tail hfp hlen1 hbuck1 hidx1]
        at hins2
      simp at hins2
    · -- distinct buckets: the second copy lands in bucket `I2`
      have hNI2 : (newFilter tb (0 + 1) H).buckets.getD I2 []
          = 0 :: List.replicate 0 0 := by
        show (List.replicate tb (List.replicate (0 + 1) 0)).getD I2 [] = _
        rw [getD_replicate _ _ _ _ hi2]
        rfl
      have hF1I2 : F1.buckets.getD I2 [] = 0 :: List.replicate 0 0 := by
        rw [hF1d]
        show ((newFilter tb (0 + 1) H).buckets.set I1 BA).getD I2 [] = _
        rw [getD_set_ne _ _ _ _ _ (fun h => hii h.symm)]
        exact hNI2
      have hadd2b : addToBucket (F1.buckets.getD I2 []) FP = some BA := by
        rw [hF1I2, hBAd]
        exact addToBucket_zero_cons _ _
      set F2 := { F1 with
        buckets := F1.buckets.set I2 BA,
        count := (F1.count + 1) % U32 } with hF2d
      have hE2 : insert F1 (pad x) rs2 = (true, F2) := by
        rw [hF2d]
        exact insert_hits2 _ _ _ _ H tb rfl rfl hadd2a hadd2b
      have hA : afterTwoInserts tb (0 + 1) H x rs1 rs2 = F2 := by
        show (((newFilter tb (0 + 1) H).Insert x rs1).2.Insert x rs2).2 = F2
        rw [hE1s, Insert_eq _ _ _ hck, hE2]
      have hF2len : F2.buckets.length = tb := by
        rw [hF2d]
        show (F1.buckets.set I2 BA).length = tb
        rw [List.length_set]
        exact hF1len
      have hF2I1 : F2.buckets.getD I1 [] = BA := by
        rw [hF2d]
        show (F1.buckets.set I2 BA).getD I1 [] = BA
        rw [getD_set_ne _ _ _ _ _ hii]
        exact hF1I1
      have hF2I2 : F2.buckets.getD I2 [] = BA := by
        rw [hF2d]
        show (F1.buckets.set I2 BA).getD I2 [] = BA
        exact getD_set_self _ _ _ _ (by rw [hF1len]; exact hi2)
      set BZ := (0 : Nat) :: List.replicate 0 0 with hBZd
      have hdel1 : deleteFrom (F2.buckets.getD I1 []) FP = some BZ := by
        rw [hF2I1, hBAd, deleteFrom_head_eq, hBZd]
      set F3 := { F2 with
        buckets := F2.buckets.set I1 BZ,
        count := (F2.count + (U32 - 1)) % U32 } with hF3d
      have hD1 : deleteItem F2 (pad x) = (true, F3) := by
        rw [hF3d]
        exact deleteItem_hits1 _ _ _ H tb rfl rfl hdel1
      have hD1s : (deleteItem F2 (pad x)).2 = F3 := by rw [hD1]
      have hD1r : (deleteItem F2 (pad x)).1 = true := by rw [hD1]
      have hF3len : F3.buckets.length = tb := by
        rw [hF3d]
        show (F2.buckets.set I1 BZ).length = tb
        rw [List.length_set]
        exact hF2len
      have hF3I1 : F3.buckets.getD I1 [] = BZ := by
        rw [hF3d]
        show (F2.buckets.set I1 BZ).getD I1 [] = BZ
        exact getD_set_self _ _ _ _ (by rw [hF2len]; exact hi1)
      have hF3I2 : F3.buckets.getD I2 [] = BA := by
        rw [hF3d]
        show (F2.buckets.set I1 BZ).getD I2 [] = BA
        rw [getD_set_ne _ _ _ _ _ (fun h => hii h.symm)]
        exact hF2I2
      have hdel2a : deleteFrom (F3.buckets.getD I1 []) FP = none := by
        rw [hF3I1, hBZd, deleteFrom_head_ne _ _ _ (fun h => hfp h.symm)]
        rfl
      have hdel2b : deleteFrom (F3.buckets.getD I2 []) FP = some BZ := by
        rw [hF3I2, hBAd, deleteFrom_head_eq, hBZd]
      set F4 := { F3 with
        buckets := F3.buckets.set I2 BZ,
        count := (F3.count + (U32 - 1)) % U32 } with hF4d
      have hD2 : deleteItem F3 (pad x) = (true, F4) := by
        rw [hF4d]
        exact deleteItem_hits2 _ _ _ H tb rfl rfl hdel2a hdel2b
      have hD2s : (deleteItem F3 (pad x)).2 = F4 := by rw [hD2]
      have hD2r : (deleteItem F3 (pad x)).1 = true := by rw [hD2]
      have hF4I1 : F4.buckets.getD I1 [] = BZ := by
        rw [hF4d]
        show (F3.buckets.set I2 BZ).getD I1 [] = BZ
        rw [getD_set_ne _ _ _ _ _ hii]
        exact hF3I1
      have hF4I2 : F4.buckets.getD I2 [] = BZ := by
        rw [hF4d]
        show (F3.buckets.set I2 BZ).getD I2 [] = BZ
        exact getD_set_self _ _ _ _ (by rw [hF3len]; exact hi2)
      have hcBZ : containsIn BZ FP = false := by
        rw [hBZd, containsIn_head_ne _ _ _ (fun h => hfp h.symm)]
        exact containsIn_replicate_zero _ _ hfp
      refine ⟨?_, ?_, ?_, ?_⟩
      · rw [hA, Delete_eq F2 x hck]
        exact hD1r
      · rw [hA, Delete_eq F2 x hck, hD1s, hLK F3 rfl rfl, hF3I1, hcBZ, hF3I2,
          hBAd, containsIn_head_eq]
        rfl
      · rw [hA, Delete_eq F2 x hck, hD1s, Delete_eq F3 x hck]
        exact hD2r
      · rw [hA, Delete_eq F2 x hck, hD1s, Delete_eq F3 x hck, hD2s,
          hLK F4 rfl rfl, hF4I1, hcBZ, hF4I2, hcBZ]
        rfl
  · -- buckets hold at least two slots: both copies land in bucket `I1`
    obtain ⟨bs'', rfl⟩ : ∃ b2, bs' = b2 + 1 := ⟨bs' - 1, by omega⟩
    set BA := FP :: List.replicate (bs'' + 1) 0 with hBAd
    set F1 := { newFilter tb (bs'' + 1 + 1) H with
        buckets := (newFilter tb (bs'' + 1 + 1) H).buckets.set I1 BA,
        count := ((newFilter tb (bs'' + 1 + 1) H).count + 1) % U32 } with hF1d
    have hN1 : (newFilter tb (bs'' + 1 + 1) H).buckets.getD I1 []
        = 0 :: List.replicate (bs'' + 1) 0 := by
      show (List.replicate tb (List.replicate (bs'' + 1 + 1) 0)).getD I1 [] = _
      rw [getD_replicate _ _ _ _ hi1]
      rfl
    have hadd1 : addToBucket ((newFilter tb (bs'' + 1 + 1) H).buckets.getD
        I1 []) FP = some BA := by
      rw [hN1, hBAd]
      exact addToBucket_zero_cons _ _
    have hE1 : insert (newFilter tb (bs'' + 1 + 1) H) (pad x) rs1
        = (true, F1) := by
      rw [hF1d]
      exact insert_hits1 _ _ _ _ H tb rfl rfl hadd1
    have hE1s : ((newFilter tb (bs'' + 1 + 1) H).Insert x rs1).2 = F1 := by
      rw [Insert_eq _ _ _ hck, hE1]
    have hF1len : F1.buckets.length = tb := by
      rw [hF1d]
      show ((newFilter tb (bs'' + 1 + 1) H).buckets.set I1 BA).length = tb
      rw [List.length_set]
      exact hNlen
    have hF1I1 : F1.buckets.getD I1 [] = BA := by
      rw [hF1d]
      show ((newFilter tb (bs'' + 1 + 1) H).buckets.set I1 BA).getD I1 [] = BA
      exact getD_set_self _ _ _ _ (by rw [hNlen]; exact hi1)
    set BB := FP :: FP :: List.replicate bs'' 0 with hBBd
    have hadd2 : addToBucket (F1.buckets.getD I1 []) FP = some BB := by
      rw [hF1I1, hBAd, List.replicate_succ,
        addToBucket_cons_nonzero _ _ _ hfp, addToBucket_zero_cons, hBBd]
      rfl
    set F2 := { F1 with
      buckets := F1.buckets.set I1 BB,
      count := (F1.count + 1) % U32 } with hF2d
    have hE2 : insert F1 (pad x) rs2 = (true, F2) := by
      rw [hF2d]
      exact insert_hits1 _ _ _ _ H tb rfl rfl hadd2
    have hA : afterTwoInserts tb (bs'' + 1 + 1) H x rs1 rs2 = F2 := by
      show (((newFilter tb (bs'' + 1 + 1) H).Insert x rs1).2.Insert x rs2).2
        = F2
      rw [hE1s, Insert_eq _ _ _ hck, hE2]
    have hF2len : F2.buckets.length = tb := by
      rw [hF2d]
      show (F1.buckets.set I1 BB).length = tb
      rw [List.length_set]
      exact hF1len
    have hF2I1 : F2.buckets.getD I1 [] = BB := by
      rw [hF2d]
      show (F1.buckets.set I1 BB).getD I1 [] = BB
      exact getD_set_self _ _ _ _ (by rw [hF1len]; exact hi1)
    set BC := (0 : Nat) :: FP :: List.replicate bs'' 0 with hBCd
    have hdel1 : deleteFrom (F2.buckets.getD I1 []) FP = some BC := by
      rw [hF2I1, hBBd, deleteFrom_head_eq, hBCd]
    set F3 := { F2 with
      buckets := F2.buckets.set I1 BC,
      count := (F2.count + (U32 - 1)) % U32 } with hF3d
    have hD1 : deleteItem F2 (pad x) = (true, F3) := by
      rw [hF3d]
      exact deleteItem_hits1 _ _ _ H tb rfl rfl hdel1
    have hD1s : (deleteItem F2 (pad x)).2 = F3 := by rw [hD1]
    have hD1r : (deleteItem F2 (pad x)).1 = true := by rw [hD1]
    have hF3len : F3.buckets.length = tb := by
      rw [hF3d]
      show (F2.buckets.set I1 BC).length = tb
      rw [List.length_set]
      exact hF2len
    have hF3I1 : F3.buckets.getD I1 [] = BC := by
      rw [hF3d]
      show (F2.buckets.set I1 BC).getD I1 [] = BC
      exact getD_set_self _ _ _ _ (by rw [hF2len]; exact hi1)
    set BD := (0 : Nat) :: (0 : Nat) :: List.replicate bs'' 0 with hBDd
    have hdel2 : deleteFrom (F3.buckets.getD I1 []) FP = some BD := by
      rw [hF3I1, hBCd, deleteFrom_head_ne _ _ _ (fun h => hfp h.symm),
        deleteFrom_head_eq, hBDd]
      rfl
    set F4 := { F3 with
      buckets := F3.buckets.set I1 BD,
      count := (F3.count + (U32 - 1)) % U32 } with hF4d
    have hD2 : deleteItem F3 (pad x) = (true, F4) := by
      rw [hF4d]
      exact deleteItem_hits1 _ _ _ H tb rfl rfl hdel2
    have hD2s : (deleteItem F3 (pad x)).2 = F4 := by rw [hD2]
    have hD2r : (deleteItem F3 (pad x)).1 = true := by rw [hD2]
    have hF4I1 : F4.buckets.getD I1 [] = BD := by
      rw [hF4d]
      show (F3.buckets.set I1 BD).getD I1 [] = BD
      exact getD_set_self _ _ _ _ (by rw [hF3len]; exact hi1)
    have hcBD : containsIn BD FP = false := by
      rw [hBDd, containsIn_head_ne _ _ _ (fun h => hfp h.symm),
        containsIn_head_ne _ _ _ (fun h => hfp h.symm)]
      exact containsIn_replicate_zero _ _ hfp
    have hNI2 : (newFilter tb (bs'' + 1 + 1) H).buckets.getD I2 []
        = List.replicate (bs'' + 1 + 1) 0 := by
      show (List.replicate tb (List.replicate (bs'' + 1 + 1) 0)).getD I2 [] = _
      exact getD_replicate _ _ _ _ hi2
    refine ⟨?_, ?_, ?_, ?_⟩
    · rw [hA, Delete_eq F2 x hck]
      exact hD1r
    · rw [hA, Delete_eq F2 x hck, hD1s, hLK F3 rfl rfl, hF3I1, hBCd,
        containsIn_head_ne _ _ _ (fun h => hfp h.symm), containsIn_head_eq]
      simp
    · rw [hA, Delete_eq F2 x hck, hD1s, Delete_eq F3 x hck]
      exact hD2r
    · rw [hA, Delete_eq F2 x hck, hD1s, Delete_eq F3 x hck, hD2s,
        hLK F4 rfl rfl, hF4I1, hcBD]
      by_cases hii : I2 = I1
      · rw [hii, hF4I1, hcBD]
        rfl
      · have hF4I2 : F4.buckets.getD I2 []
            = List.replicate (bs'' + 1 + 1) 0 := by
          rw [hF4d]
          show (F3.buckets.set I1 BD).getD I2 [] = _
          rw [getD_set_ne _ _ _ _ _ (fun h => hii h.symm), hF3d]
          show (F2.buckets.set I1 BC).getD I2 [] = _
          rw [getD_set_ne _ _ _ _ _ (fun h => hii h.symm), hF2d]
          show (F1.buckets.set I1 BB).getD I2 [] = _
          rw [getD_set_ne _ _ _ _ _ (fun h => hii h.symm), hF1d]
          show (((newFilter tb (bs'' + 1 + 1) H).buckets.set I1 BA)).getD
            I2 [] = _
          rw [getD_set_ne _ _ _ _ _ (fun h => hii h.symm)]
          exact hNI2
        rw [hF4I2, containsIn_replicate_zero _ _ hfp]
        rfl

/-- Witness for the amended C8 theorem at a fresh `4 × 1` filter with hash
`hOne` and item `[0,5]` (two direct inserts into buckets `0` and `1`). -/
theorem double_insert_two_deletes_witness :
    ((afterTwoInserts 4 1 hOne [0, 5] [] []).Delete [0, 5]).1 = true ∧
      ((afterTwoInserts 4 1 hOne [0, 5] [] []).Delete [0, 5]).2.Lookup [0, 5]
        = true ∧
      (((afterTwoInserts 4 1 hOne [0, 5] [] []).Delete [0, 5]).2.Delete
        [0, 5]).1 = true ∧
      (((afterTwoInserts 4 1 hOne [0, 5] [] []).Delete [0, 5]).2.Delete
        [0, 5]).2.Lookup [0, 5] = false :=
  double_insert_two_deletes 4 1 hOne [0, 5] [] [] (by decide) (by decide)
    (by decide) (by decide)

end Cuckoo
